import Mathlib

/-!
Verification of the forecast aggregation and input validation pipeline of the
portfolioWeather repository.

The embedding models:
* `src/src/services/weatherService.ts`: `transformForecastData`,
  `transformHourlyItem`, `getDayName`, `formatTime`;
* `src/src/utils/validation.ts`: `validateSearchInput`, `formatApiQuery`.

Modelling conventions:
* JS numbers are modelled as `ℚ` (the source only performs exact arithmetic:
  sums, means, `Math.round`, comparisons). Because `Rat.add`/`Rat.mul`/… are
  `@[irreducible]` in Batteries, the embedding uses kernel-reducible wrappers
  (`qAdd`, `qMul`, `qDiv`, built on `mkRat`) that are proved equal to the
  library operations, so witnesses can be checked by `decide`.
* `Math.round x` is `⌊x + 1/2⌋` (JS rounds half-up, also for negatives).
* The ambient clock and timezone of the browser are explicit parameters:
  `tz` is the local UTC offset in seconds and `now` the current Unix time in
  seconds. `new Date(dt * 1000).getFullYear()/getMonth()/getDate()` is
  modelled by the proleptic-Gregorian civil-date computation on
  `(dt + tz) / 86400` (floor division), i.e. a fixed-offset timezone.
* JS `Array.prototype.sort()` on the distinct date keys sorts them in
  ascending UTF-16 code-unit (= code-point, all keys are ASCII) order; it is
  modelled by an insertion sort for the code-point order on `String.data`.
* JS `Map` is modelled as an association list preserving first-insertion key
  order, with `set` replacing the value in place.
-/

/-! ## Character and string helpers -/

/-- ASCII digit, JS regex `\d`. -/
def isAsciiDigit (c : Char) : Bool := 48 ≤ c.toNat && c.toNat ≤ 57

/-- ASCII letter, JS regex `[a-zA-Z]`. -/
def isAsciiLetter (c : Char) : Bool :=
  (65 ≤ c.toNat && c.toNat ≤ 90) || (97 ≤ c.toNat && c.toNat ≤ 122)

/-- The JS whitespace class: characters matched by regex `\s`, which is also
the set stripped by `String.prototype.trim`. -/
def isJsWs (c : Char) : Bool :=
  let n := c.toNat
  n == 0x09 || n == 0x0A || n == 0x0B || n == 0x0C || n == 0x0D || n == 0x20 ||
  n == 0xA0 || n == 0x1680 || (0x2000 ≤ n && n ≤ 0x200A) || n == 0x2028 ||
  n == 0x2029 || n == 0x202F || n == 0x205F || n == 0x3000 || n == 0xFEFF

/-- `String.prototype.trim` on a character list. -/
def jsTrimList (cs : List Char) : List Char :=
  ((cs.dropWhile isJsWs).reverse.dropWhile isJsWs).reverse

/-- `String.prototype.trim`. -/
def jsTrim (s : String) : String := ⟨jsTrimList s.data⟩

/-- Does `cs` begin with the pattern `pat`? -/
def beginsWith : (pat cs : List Char) → Bool
  | [], _ => true
  | _ :: _, [] => false
  | p :: ps, c :: cs => p == c && beginsWith ps cs

/-- Does `cs` contain `pat` as a contiguous subsequence?
Models JS `String.prototype.includes`. -/
def hasSeq (pat : List Char) : (cs : List Char) → Bool
  | [] => beginsWith pat []
  | c :: cs => beginsWith pat (c :: cs) || hasSeq pat cs

/-! ## Code-point order on strings (JS string comparison) -/

/-- Three-way lexicographic comparison of character lists by code point. -/
def cmpChars : List Char → List Char → Ordering
  | [], [] => .eq
  | [], _ :: _ => .lt
  | _ :: _, [] => .gt
  | a :: as, b :: bs =>
    if a.toNat < b.toNat then .lt else if b.toNat < a.toNat then .gt else cmpChars as bs

/-- JS `a <= b` on strings. -/
def strLe (a b : String) : Prop := cmpChars a.data b.data ≠ Ordering.gt

/-- JS `a < b` on strings. -/
def strLt (a b : String) : Prop := cmpChars a.data b.data = Ordering.lt

instance (a b : String) : Decidable (strLe a b) := by unfold strLe; infer_instance

instance (a b : String) : Decidable (strLt a b) := by unfold strLt; infer_instance

theorem cmpChars_self (as : List Char) : cmpChars as as = .eq := by
  induction as with
  | nil => rfl
  | cons a as ih => simp [cmpChars, ih]

theorem cmpChars_eq_iff {as bs : List Char} : cmpChars as bs = .eq ↔ as = bs := by
  constructor
  · intro h
    induction as generalizing bs with
    | nil => cases bs with
      | nil => rfl
      | cons b bs => simp [cmpChars] at h
    | cons a as ih =>
      cases bs with
      | nil => simp [cmpChars] at h
      | cons b bs =>
        unfold cmpChars at h
        split at h
        · exact absurd h (by simp)
        · split at h
          · exact absurd h (by simp)
          · have hab : a = b := by
              apply Char.ext; apply UInt32.ext
              have e1 : a.toNat = a.val.toNat := rfl
              have e2 : b.toNat = b.val.toNat := rfl
              omega
            rw [hab, ih h]
  · rintro rfl; exact cmpChars_self as

theorem cmpChars_swap (as bs : List Char) : cmpChars bs as = (cmpChars as bs).swap := by
  induction as generalizing bs with
  | nil => cases bs <;> rfl
  | cons a as ih =>
    cases bs with
    | nil => rfl
    | cons b bs =>
      unfold cmpChars
      rcases Nat.lt_trichotomy a.toNat b.toNat with h | h | h
      · rw [if_pos h, if_neg (by omega), if_pos h]; rfl
      · rw [if_neg (by omega), if_neg (by omega), if_neg (by omega), if_neg (by omega)]
        exact ih bs
      · rw [if_pos h, if_neg (by omega), if_pos h]; rfl

theorem cmpChars_lt_trans {as bs cs : List Char} (h₁ : cmpChars as bs = .lt)
    (h₂ : cmpChars bs cs = .lt) : cmpChars as cs = .lt := by
  induction as generalizing bs cs with
  | nil =>
    cases cs with
    | nil =>
      cases bs with
      | nil => exact h₁
      | cons b bs => simp [cmpChars] at h₂
    | cons c cs => rfl
  | cons a as ih =>
    cases bs with
    | nil => simp [cmpChars] at h₁
    | cons b bs =>
      cases cs with
      | nil => simp [cmpChars] at h₂
      | cons c cs =>
        unfold cmpChars at h₁ h₂ ⊢
        split at h₁
        · split at h₂
          · rw [if_pos (by omega)]
          · split at h₂
            · exact absurd h₂ (by simp)
            · rw [if_pos (by omega)]
        · split at h₁
          · exact absurd h₁ (by simp)
          · -- a = b
            split at h₂
            · rw [if_pos (by omega)]
            · split at h₂
              · exact absurd h₂ (by simp)
              · rw [if_neg (by omega), if_neg (by omega)]
                exact ih h₁ h₂

theorem strLe_refl (a : String) : strLe a a := by
  unfold strLe; rw [cmpChars_self]; simp

theorem strLe_total (a b : String) : strLe a b ∨ strLe b a := by
  unfold strLe
  rw [cmpChars_swap a.data b.data]
  cases cmpChars a.data b.data <;> simp [Ordering.swap]

theorem strLe_antisymm {a b : String} (h₁ : strLe a b) (h₂ : strLe b a) : a = b := by
  unfold strLe at h₁ h₂
  rw [cmpChars_swap a.data b.data] at h₂
  have : cmpChars a.data b.data = .eq := by
    cases h : cmpChars a.data b.data
    · rw [h] at h₂; simp [Ordering.swap] at h₂
    · rfl
    · exact absurd h h₁
  exact String.ext (cmpChars_eq_iff.mp this)

theorem strLe_trans {a b c : String} (h₁ : strLe a b) (h₂ : strLe b c) : strLe a c := by
  unfold strLe at h₁ h₂ ⊢
  cases hab : cmpChars a.data b.data with
  | gt => exact absurd hab h₁
  | eq =>
    have : a.data = b.data := cmpChars_eq_iff.mp hab
    rw [this]; exact h₂
  | lt =>
    cases hbc : cmpChars b.data c.data with
    | gt => exact absurd hbc h₂
    | eq =>
      have : b.data = c.data := cmpChars_eq_iff.mp hbc
      rw [← this]; simp [hab]
    | lt => simp [cmpChars_lt_trans hab hbc]

theorem strLt_iff {a b : String} : strLt a b ↔ strLe a b ∧ a ≠ b := by
  unfold strLt strLe
  constructor
  · intro h
    refine ⟨by simp [h], ?_⟩
    rintro rfl
    rw [cmpChars_self] at h; simp at h
  · rintro ⟨h₁, h₂⟩
    cases h : cmpChars a.data b.data with
    | lt => rfl
    | gt => exact absurd h h₁
    | eq =>
      exact absurd (String.ext (cmpChars_eq_iff.mp h)) h₂

theorem strLt_irrefl (a : String) : ¬ strLt a a := by
  intro h; exact (strLt_iff.mp h).2 rfl

theorem strLe_of_strLt {a b : String} (h : strLt a b) : strLe a b := (strLt_iff.mp h).1

theorem strLt_of_strLt_of_strLe {a b c : String} (h₁ : strLt a b) (h₂ : strLe b c) :
    strLt a c := by
  have hle : strLe a c := strLe_trans (strLe_of_strLt h₁) h₂
  rw [strLt_iff]
  refine ⟨hle, ?_⟩
  rintro rfl
  exact (strLt_iff.mp h₁).2 (strLe_antisymm (strLe_of_strLt h₁) h₂)

theorem not_strLt_iff {a b : String} : ¬ strLt a b ↔ strLe b a := by
  unfold strLt strLe
  rw [cmpChars_swap a.data b.data]
  cases cmpChars a.data b.data <;> simp [Ordering.swap]

/-! ## Sorting the date keys

`Array.from(map.keys()).sort()` sorts the (distinct) keys in ascending
code-unit order. Any comparison sort agrees on a list of distinct keys, so an
insertion sort for `strLe` models it. -/

/-- Insert a key into a sorted list of keys. -/
def insertKey (k : String) : List String → List String
  | [] => [k]
  | x :: xs => if strLe k x then k :: x :: xs else x :: insertKey k xs

/-- Ascending sort of the date keys, modelling JS `Array.prototype.sort()`. -/
def sortKeys : List String → List String
  | [] => []
  | k :: ks => insertKey k (sortKeys ks)

theorem insertKey_perm (k : String) (l : List String) :
    List.Perm (insertKey k l) (k :: l) := by
  induction l with
  | nil => exact List.Perm.refl _
  | cons x xs ih =>
    unfold insertKey
    split
    · exact List.Perm.refl _
    · exact ((ih.cons x).trans (List.Perm.swap k x xs))

theorem sortKeys_perm (l : List String) : List.Perm (sortKeys l) l := by
  induction l with
  | nil => exact List.Perm.refl _
  | cons k ks ih => exact (insertKey_perm k (sortKeys ks)).trans (ih.cons k)

theorem mem_sortKeys {k : String} {l : List String} : k ∈ sortKeys l ↔ k ∈ l :=
  (sortKeys_perm l).mem_iff

theorem sorted_insertKey {k : String} {l : List String} (h : l.Pairwise strLe) :
    (insertKey k l).Pairwise strLe := by
  induction l with
  | nil => simp [insertKey]
  | cons x xs ih =>
    unfold insertKey
    split
    · next hle =>
      refine List.Pairwise.cons ?_ h
      intro y hy
      rcases List.mem_cons.mp hy with rfl | hy
      · exact hle
      · exact strLe_trans hle (List.rel_of_pairwise_cons h hy)
    · next hnle =>
      have hxk : strLe x k := by
        rcases strLe_total k x with h' | h'
        · exact absurd h' hnle
        · exact h'
      refine List.Pairwise.cons ?_ (ih (List.Pairwise.sublist (List.sublist_cons_self x xs) h))
      intro y hy
      have : y ∈ k :: xs := (insertKey_perm k xs).mem_iff.mp hy
      rcases List.mem_cons.mp this with rfl | hy'
      · exact hxk
      · exact List.rel_of_pairwise_cons h hy'

theorem sorted_sortKeys (l : List String) : (sortKeys l).Pairwise strLe := by
  induction l with
  | nil => simp [sortKeys]
  | cons k ks ih => exact sorted_insertKey ih

theorem nodup_sortKeys {l : List String} (h : l.Nodup) : (sortKeys l).Nodup :=
  (sortKeys_perm l).nodup_iff.mpr h

theorem pairwise_strLt_of_sorted_nodup {l : List String} (hs : l.Pairwise strLe)
    (hn : l.Nodup) : l.Pairwise strLt := by
  have := hs.and hn
  exact this.imp fun h => strLt_iff.mpr ⟨h.1, h.2⟩

theorem head_min_of_sorted {d : String} {rest : List String} {k : String}
    (hs : (d :: rest).Pairwise strLe) (hk : k ∈ d :: rest) : strLe d k := by
  rcases List.mem_cons.mp hk with rfl | hk
  · exact strLe_refl k
  · exact List.rel_of_pairwise_cons hs hk

theorem sortKeys_eq_of_perm {l₁ l₂ : List String} (h : List.Perm l₁ l₂) :
    sortKeys l₁ = sortKeys l₂ := by
  haveI : IsAntisymm String strLe := ⟨fun _ _ => strLe_antisymm⟩
  exact List.eq_of_perm_of_sorted
    ((sortKeys_perm l₁).trans (h.trans (sortKeys_perm l₂).symm))
    (sorted_sortKeys l₁) (sorted_sortKeys l₂)

/-! ## Reducible wrappers for rational arithmetic

The JS number operations used by the pipeline, written so that the kernel can
evaluate them (`Rat.add` and friends are irreducible in the library). Each is
proved equal to the corresponding library operation. -/

/-- Rational addition. -/
def qAdd (a b : ℚ) : ℚ := mkRat (a.num * b.den + b.num * a.den) (a.den * b.den)

/-- Rational multiplication. -/
def qMul (a b : ℚ) : ℚ := mkRat (a.num * b.num) (a.den * b.den)

/-- Rational division (0 on division by zero, which the pipeline never hits). -/
def qDiv (a b : ℚ) : ℚ := Rat.divInt (a.num * b.den) (b.num * a.den)

theorem qAdd_eq (a b : ℚ) : qAdd a b = a + b := (Rat.add_def' a b).symm

theorem qMul_eq (a b : ℚ) : qMul a b = a * b := by
  unfold qMul
  rw [Rat.mkRat_eq_divInt, Rat.divInt_eq_div]
  push_cast
  conv_rhs => rw [← Rat.num_div_den a, ← Rat.num_div_den b]
  rw [div_mul_div_comm]

theorem qDiv_eq (a b : ℚ) : qDiv a b = a / b := by
  unfold qDiv
  rw [Rat.divInt_eq_div]
  rcases eq_or_ne b 0 with rfl | hb
  · simp
  · have hbn : (b.num : ℚ) ≠ 0 := Int.cast_ne_zero.mpr (Rat.num_ne_zero.mpr hb)
    have had : ((a.den : ℕ) : ℚ) ≠ 0 := Nat.cast_ne_zero.mpr a.den_nz
    have hbd : ((b.den : ℕ) : ℚ) ≠ 0 := Nat.cast_ne_zero.mpr b.den_nz
    conv_rhs => rw [← Rat.num_div_den a, ← Rat.num_div_den b]
    push_cast
    field_simp
    exact Or.inl (mul_comm _ _)

/-- JS `Math.round x = ⌊x + 0.5⌋`, as a reducible integer computation. -/
def jsRound (q : ℚ) : ℚ := (((q.num * 2 + (q.den : ℤ)) / ((q.den : ℤ) * 2) : ℤ) : ℚ)

theorem jsRound_eq (q : ℚ) : jsRound q = ((⌊q + 1/2⌋ : ℤ) : ℚ) := by
  have hhalf : q + 1/2 =
      ((q.num * 2 + (q.den : ℤ) : ℤ) : ℚ) / (((q.den * 2 : ℕ) : ℕ) : ℚ) := by
    have hd : ((q.den : ℕ) : ℚ) ≠ 0 := Nat.cast_ne_zero.mpr q.den_nz
    conv_lhs => rw [← Rat.num_div_den q]
    push_cast
    field_simp
  unfold jsRound
  rw [hhalf, Rat.floor_intCast_div_natCast]
  push_cast
  rfl

theorem jsRound_isInt (q : ℚ) : ∃ k : ℤ, jsRound q = (k : ℚ) :=
  ⟨⌊q + 1/2⌋, jsRound_eq q⟩

theorem jsRound_mono {a b : ℚ} (h : a ≤ b) : jsRound a ≤ jsRound b := by
  rw [jsRound_eq, jsRound_eq]
  exact_mod_cast Int.floor_le_floor (by linarith)

/-! ## Aggregation over a bucket (JS `Math.max(...)`, `Math.min(...)`, sums) -/

/-- Sum of a list of JS numbers (`reduce((a, b) => a + b, 0)`). -/
def listSum (l : List ℚ) : ℚ := l.foldl qAdd 0

/-- `Math.max(...l)`. The source never applies it to an empty bucket
(where JS would give `-Infinity`); `0` is an arbitrary total-function value. -/
def listMax : List ℚ → ℚ
  | [] => 0
  | x :: xs => xs.foldl max x

/-- `Math.min(...l)`, see `listMax`. -/
def listMin : List ℚ → ℚ
  | [] => 0
  | x :: xs => xs.foldl min x

theorem foldl_min_le (l : List ℚ) (a : ℚ) : l.foldl min a ≤ a := by
  induction l generalizing a with
  | nil => exact le_refl a
  | cons y ys ih => exact le_trans (ih (min a y)) (min_le_left a y)

theorem le_foldl_max (l : List ℚ) (a : ℚ) : a ≤ l.foldl max a := by
  induction l generalizing a with
  | nil => exact le_refl a
  | cons y ys ih => exact le_trans (le_max_left a y) (ih (max a y))

theorem listMin_le_listMax (l : List ℚ) : listMin l ≤ listMax l := by
  cases l with
  | nil => exact le_refl 0
  | cons x xs => exact le_trans (foldl_min_le xs x) (le_foldl_max xs x)

/-! ## Local calendar dates

`new Date(seconds * 1000)` observed through
`getFullYear()/getMonth()/getDate()` in a fixed-offset local timezone:
proleptic-Gregorian civil date of the day number `(seconds + tz) / 86400`
(floor division). The algorithms are the standard era-based conversions. -/

/-- Civil date `(year, month, day)` from a day number (days since 1970-01-01). -/
def civilFromDays (z0 : Int) : Int × Nat × Nat :=
  let z := z0 + 719468
  let era : Int := z.fdiv 146097
  let doe : Nat := (z - era * 146097).toNat
  let yoe : Nat := (doe - doe / 1460 + doe / 36524 - doe / 146096) / 365
  let doy : Nat := doe - (365 * yoe + yoe / 4 - yoe / 100)
  let mp : Nat := (5 * doy + 2) / 153
  let d : Nat := doy - (153 * mp + 2) / 5 + 1
  let m : Nat := if mp < 10 then mp + 3 else mp - 9
  (era * 400 + yoe + (if m ≤ 2 then 1 else 0), m, d)

/-- Day number from a civil date (inverse of `civilFromDays`). -/
def daysFromCivil (y : Int) (m d : Nat) : Int :=
  let y' := if m ≤ 2 then y - 1 else y
  let era : Int := y'.fdiv 400
  let yoe : Nat := (y' - era * 400).toNat
  let doy : Nat := (153 * (if 2 < m then m - 3 else m + 9) + 2) / 5 + d - 1
  let doe : Nat := yoe * 365 + yoe / 4 - yoe / 100 + doy
  era * 146097 + (doe : Int) - 719468

/-- `String(n).padStart(2, '0')` for month and day numbers. -/
def pad2 (n : Nat) : String := if n < 10 then "0" ++ toString n else toString n

/-- The `` `${y}-${mm}-${dd}` `` date key template. -/
def formatCivil : Int × Nat × Nat → String
  | (y, m, d) => toString y ++ "-" ++ pad2 m ++ "-" ++ pad2 d

/-- Local calendar-date key (`YYYY-MM-DD`) of an absolute Unix time `secs`,
for local UTC offset `tz` (seconds). -/
def dateKeyAt (tz : Int) (secs : Int) : String :=
  formatCivil (civilFromDays ((secs + tz).fdiv 86400))

/-- English weekday name of a day number (1970-01-01 was a Thursday);
`toLocaleDateString('en-US', { weekday: 'long' })`. -/
def weekdayName (z : Int) : String :=
  ["Sunday", "Monday", "Tuesday", "Wednesday", "Thursday", "Friday",
   "Saturday"].getD ((z + 4).emod 7).toNat ""

/-- Digits-to-number parsing used when `new Date` parses a date/time field. -/
def digitsToNat (cs : List Char) : Nat :=
  cs.foldl (fun acc c => acc * 10 + (c.toNat - 48)) 0

/-! ## Domain types (`src/src/types`)

Fields never read by the pipeline under verification (`clouds`,
`visibility`, the numeric `id` of a weather condition, …) are omitted. -/

/-- One entry of `OWMForecastItem.weather`. -/
structure OWMWeatherCondition where
  main : String
  description : String
  icon : String
deriving DecidableEq

/-- `main` block of a 3-hour forecast item. -/
structure OWMMainData where
  temp : ℚ
  feels_like : ℚ
  humidity : ℚ
deriving DecidableEq

/-- `wind` block of a 3-hour forecast item. -/
structure OWMWind where
  speed : ℚ
deriving DecidableEq

/-- A single 3-hour forecast entry from the OWM API. -/
structure OWMForecastItem where
  dt : Nat
  main : OWMMainData
  weather : List OWMWeatherCondition
  wind : OWMWind
  pop : ℚ
  dt_txt : String
deriving DecidableEq

/-- Normalized hourly weather entry for display. -/
structure HourlyWeather where
  time : String
  temp : ℚ
  feelsLike : ℚ
  humidity : ℚ
  windSpeed : ℚ
  condition : String
  description : String
  icon : String
  pop : ℚ
deriving DecidableEq

/-- Single day forecast with aggregated data and hourly breakdown. -/
structure DayForecast where
  date : String
  dayName : String
  tempHigh : ℚ
  tempLow : ℚ
  condition : String
  description : String
  icon : String
  humidity : ℚ
  windSpeed : ℚ
  hourly : List HourlyWeather
deriving DecidableEq

/-- Total-function default for `weather[0]` (never hit on well-formed data). -/
def wDefault : OWMWeatherCondition := ⟨"", "", ""⟩

/-- Total-function default forecast item. -/
def defaultItem : OWMForecastItem := ⟨0, ⟨0, 0, 0⟩, [], ⟨0⟩, 0, ""⟩

/-- Total-function default day forecast. -/
def defaultForecast : DayForecast := ⟨"", "", 0, 0, "", "", "", 0, 0, []⟩

/-! ## Formatting helpers of `weatherService.ts` -/

/-- `formatTime`: renders the `HH:MM` of a `"YYYY-MM-DD HH:MM:SS"` string on a
12-hour clock, `toLocaleTimeString('en-US', { hour: 'numeric',
minute: '2-digit', hour12: true })`. -/
def formatTime (dtTxt : String) : String :=
  let h := digitsToNat ((dtTxt.data.drop 11).take 2)
  let mnt := String.mk ((dtTxt.data.drop 14).take 2)
  let h12 := if h % 12 == 0 then 12 else h % 12
  let ampm := if h < 12 then "AM" else "PM"
  toString h12 ++ ":" ++ mnt ++ " " ++ ampm

/-- `getDayName`: "Today" when the key names the current local calendar date
(compared componentwise, the key being parsed at local noon), else the full
weekday name. `tz`/`now` model the ambient local timezone offset and clock. -/
def getDayName (tz now : Int) (dateStr : String) : String :=
  let parts := dateStr.data.splitOn '-'
  let y := digitsToNat (parts.getD 0 [])
  let m := digitsToNat (parts.getD 1 [])
  let d := digitsToNat (parts.getD 2 [])
  let t := civilFromDays ((now + tz).fdiv 86400)
  if (y : Int) = t.1 ∧ m = t.2.1 ∧ d = t.2.2 then "Today"
  else weekdayName (daysFromCivil y m d)

/-- `transformHourlyItem` of `weatherService.ts`. -/
def transformHourlyItem (item : OWMForecastItem) : HourlyWeather :=
  { time := formatTime item.dt_txt
    temp := jsRound item.main.temp
    feelsLike := jsRound item.main.feels_like
    humidity := item.main.humidity
    windSpeed := jsRound item.wind.speed
    condition := (item.weather.headD wDefault).main
    description := (item.weather.headD wDefault).description
    icon := (item.weather.headD wDefault).icon
    pop := jsRound (qMul item.pop 100) }

/-! ## Grouping by local date (`transformForecastData`) -/

/-- The local calendar-date key the aggregation derives for a sample:
`new Date(item.dt * 1000)` rendered as `YYYY-MM-DD` in local time. -/
def dateKeyOfItem (tz : Int) (item : OWMForecastItem) : String :=
  dateKeyAt tz (item.dt : Int)

/-- `Map.prototype.get` on the insertion-ordered association list. -/
def mapGet : List (String × List OWMForecastItem) → String →
    Option (List OWMForecastItem)
  | [], _ => none
  | (k', v) :: rest, k => if k' = k then some v else mapGet rest k

/-- `Map.prototype.set`: replaces in place, or appends a new key at the end. -/
def mapSet : List (String × List OWMForecastItem) → String →
    List OWMForecastItem → List (String × List OWMForecastItem)
  | [], k, v => [(k, v)]
  | (k', v') :: rest, k, v =>
    if k' = k then (k, v) :: rest else (k', v') :: mapSet rest k v

/-- The grouping loop of `transformForecastData`: push each item onto the
bucket of its local date key. -/
def groupItems (tz : Int) : List OWMForecastItem →
    List (String × List OWMForecastItem) → List (String × List OWMForecastItem)
  | [], m => m
  | item :: rest, m =>
    let k := dateKeyOfItem tz item
    groupItems tz rest (mapSet m k (((mapGet m k).getD []) ++ [item]))

/-- The representative-sample choice: the first bucket sample whose `dt_txt`
contains `"12:00:00"`, else the sample at index `⌊length / 2⌋`. -/
def middayOf (dayItems : List OWMForecastItem) : OWMForecastItem :=
  (dayItems.find? (fun item => hasSeq ("12:00:00").data item.dt_txt.data)).getD
    (dayItems.getD (dayItems.length / 2) defaultItem)

/-- The body of the per-day loop of `transformForecastData`. -/
def buildDay (tz now : Int) (grouped : List (String × List OWMForecastItem))
    (date : String) : DayForecast :=
  let dayItems := (mapGet grouped date).getD []
  let temps := dayItems.map (fun item => item.main.temp)
  let humidities := dayItems.map (fun item => item.main.humidity)
  let winds := dayItems.map (fun item => item.wind.speed)
  let midday := middayOf dayItems
  { date := date
    dayName := getDayName tz now date
    tempHigh := jsRound (listMax temps)
    tempLow := jsRound (listMin temps)
    condition := (midday.weather.headD wDefault).main
    description := (midday.weather.headD wDefault).description
    icon := (midday.weather.headD wDefault).icon
    humidity := jsRound (qDiv (listSum humidities) (humidities.length : ℚ))
    windSpeed := jsRound (qDiv (listSum winds) (winds.length : ℚ))
    hourly := dayItems.map transformHourlyItem }

/-- The grouped map after the today-backfill step: when the earliest sorted
key is strictly greater than today's key, a bucket holding just `items[0]` is
set for today's key. -/
def forecastMap (tz now : Int) (items : List OWMForecastItem) :
    List (String × List OWMForecastItem) :=
  match sortKeys ((groupItems tz items []).map Prod.fst), items with
  | d0 :: _, first :: _ =>
    if strLt (dateKeyAt tz now) d0 then
      mapSet (groupItems tz items []) (dateKeyAt tz now) [first]
    else groupItems tz items []
  | _, _ => groupItems tz items []

/-- The date-key list the day loop runs over: the sorted keys, with today's
key prepended when the backfill triggers. -/
def forecastDates (tz now : Int) (items : List OWMForecastItem) : List String :=
  match sortKeys ((groupItems tz items []).map Prod.fst), items with
  | d0 :: rest, _first :: _ =>
    if strLt (dateKeyAt tz now) d0 then dateKeyAt tz now :: d0 :: rest
    else d0 :: rest
  | ds, _ => ds

/-- `transformForecastData` of `weatherService.ts`: group by local date,
sort the keys, backfill today if missing, build one `DayForecast` per key,
stopping after the sixth. -/
def transformForecastData (tz now : Int) (items : List OWMForecastItem) :
    List DayForecast :=
  ((forecastDates tz now items).take 6).map
    (buildDay tz now (forecastMap tz now items))

/-- The distinct local date keys spanned by a sample list (its "N distinct
local calendar days"). -/
def dayKeys (tz : Int) (items : List OWMForecastItem) : List String :=
  (items.map (dateKeyOfItem tz)).dedup

/-! ## Input validation (`src/src/utils/validation.ts`) -/

/-- `ZIP_REGEX = /^\d{5}$/`. -/
def zipTest (cs : List Char) : Bool := cs.length == 5 && cs.all isAsciiDigit

/-- The character class `[a-zA-Z\s.\-']` of `CITY_REGEX`. -/
def inCityClass (c : Char) : Bool :=
  isAsciiLetter c || isJsWs c || c.toNat == 46 || c.toNat == 45 || c.toNat == 39

/-- The tail of the optional state group `(,\s?[a-zA-Z]{2})$` after the
comma: an optional single whitespace, then exactly two letters, then the end
of the string. -/
def stateTail (cs : List Char) : Bool :=
  match cs with
  | [a, b] => isAsciiLetter a && isAsciiLetter b
  | [w, a, b] => isJsWs w && isAsciiLetter a && isAsciiLetter b
  | _ => false

/-- `CITY_REGEX = /^[a-zA-Z][a-zA-Z\s.\-']{0,98}(,\s?[a-zA-Z]{2})?$/`.

Since `,` is not in the repeated class, a successful match must let the class
consume the maximal class-prefix of the remainder, whose length must then be
at most 98, followed by nothing or by the comma-state group. -/
def matchesCity (cs : List Char) : Bool :=
  match cs with
  | [] => false
  | c :: rest =>
    isAsciiLetter c && decide ((rest.takeWhile inCityClass).length ≤ 98) &&
      (match rest.dropWhile inCityClass with
       | [] => true
       | d :: tail => d.toNat == 44 && stateTail tail)

/-- The `type` tag of a `ValidationResult`. -/
inductive QueryType where
  | zip
  | city
  | invalid
deriving DecidableEq

/-- `ValidationResult` of `src/src/types`. -/
structure ValidationResult where
  isValid : Bool
  type : QueryType
  sanitized : String
deriving DecidableEq

/-- `validateSearchInput` of `validation.ts`. -/
def validateSearchInput (input : String) : ValidationResult :=
  let sanitized := jsTrim input
  if sanitized.data.length = 0 then ⟨false, .invalid, sanitized⟩
  else if zipTest sanitized.data then ⟨true, .zip, sanitized⟩
  else if matchesCity sanitized.data then ⟨true, .city, sanitized⟩
  else ⟨false, .invalid, sanitized⟩

/-- Split a character list at its last comma: `some (before, after)`, or
`none` when it has no comma. -/
def lastCommaSplit : List Char → Option (List Char × List Char)
  | [] => none
  | c :: rest =>
    match lastCommaSplit rest with
    | some (pre, post) => some (c :: pre, post)
    | none => if c.toNat == 44 then some ([], rest) else none

/-- The ECMAScript line terminators LF, CR, U+2028, U+2029 — the characters
`.` (without the `s` flag) does not match. -/
def isLineTerm (c : Char) : Bool :=
  c.toNat == 0x0A || c.toNat == 0x0D || c.toNat == 0x2028 || c.toNat == 0x2029

/-- The match of `/^(.+),\s*([a-zA-Z]{2})$/` used by `formatApiQuery`.

Nothing after the chosen comma could contain another comma (`\s` and
`[a-zA-Z]` both exclude it), so only the last comma of the string can be the
one the pattern consumes; the `(.+)` before it must be non-empty and — `.`
not matching line terminators — free of LF, CR, U+2028 and U+2029 (which
`CITY_REGEX`'s `\s` does admit into validated names, so classified inputs
can fail here); after the comma, whitespace (`\s*`, greedy, disjoint from
letters) then exactly two letters must reach the end. -/
def cityStateMatch (cs : List Char) : Option (List Char × List Char) :=
  match lastCommaSplit cs with
  | none => none
  | some (pre, post) =>
    let st := post.dropWhile isJsWs
    if pre.length ≠ 0 ∧ pre.all (fun c => !isLineTerm c) ∧ st.length = 2 ∧
        st.all isAsciiLetter then
      some (pre, st)
    else none

/-- `formatApiQuery` of `validation.ts`. -/
def formatApiQuery (sanitized : String) (qt : QueryType) : String :=
  if qt = .zip then sanitized ++ ",US"
  else
    match cityStateMatch sanitized.data with
    | some (name, st) => String.mk (jsTrimList name) ++ "," ++ String.mk st ++ ",US"
    | none => sanitized ++ ",US"

/-- Number of positions of `hay` at which `pat` occurs. -/
def countOcc (pat : List Char) : (hay : List Char) → Nat
  | [] => if beginsWith pat [] then 1 else 0
  | c :: rest => (if beginsWith pat (c :: rest) then 1 else 0) + countOcc pat rest

/-! ## Declarative grammars from the specification

These follow the specification text (not the code) and are compared with the
regex-derived classifier. -/

/-- A trimmed input of exactly five ASCII digits (the spec's zip shape). -/
def ZipShape (cs : List Char) : Prop := cs.length = 5 ∧ ∀ c ∈ cs, isAsciiDigit c = true

instance (cs : List Char) : Decidable (ZipShape cs) := by
  unfold ZipShape; infer_instance

/-- The spec's city-name character class read literally: letters, the space
character, periods, hyphens, apostrophes. -/
def ClaimCityClass (c : Char) : Prop :=
  isAsciiLetter c = true ∨ c.toNat = 32 ∨ c.toNat = 46 ∨ c.toNat = 45 ∨ c.toNat = 39

/-- The spec's optional trailing state suffix read literally: nothing, or
`,XX` or `, XX` (two letters, separator a literal space). -/
def ClaimSuffix (suff : List Char) : Prop :=
  suff = [] ∨ ∃ a b, isAsciiLetter a = true ∧ isAsciiLetter b = true ∧
    (suff = [',', a, b] ∨ suff = [',', ' ', a, b])

/-- The spec's city grammar read literally: a letter, then up to 98 class
characters, then the optional state suffix. -/
def ClaimCity (cs : List Char) : Prop :=
  ∃ c body suff, cs = c :: (body ++ suff) ∧ isAsciiLetter c = true ∧
    body.length ≤ 98 ∧ (∀ x ∈ body, ClaimCityClass x) ∧ ClaimSuffix suff

/-- The city-name character class with the space generalized to any
JS whitespace character (what `CITY_REGEX` actually accepts via `\s`). -/
def WsCityClass (c : Char) : Prop :=
  isAsciiLetter c = true ∨ isJsWs c = true ∨ c.toNat = 46 ∨ c.toNat = 45 ∨ c.toNat = 39

/-- The optional trailing state suffix with the separator generalized to any
single JS whitespace character. -/
def WsSuffix (suff : List Char) : Prop :=
  suff = [] ∨ ∃ a b, isAsciiLetter a = true ∧ isAsciiLetter b = true ∧
    (suff = [',', a, b] ∨ ∃ w, isJsWs w = true ∧ suff = [',', w, a, b])

/-- The city grammar with whitespace instead of literal spaces. -/
def WsCity (cs : List Char) : Prop :=
  ∃ c body suff, cs = c :: (body ++ suff) ∧ isAsciiLetter c = true ∧
    body.length ≤ 98 ∧ (∀ x ∈ body, WsCityClass x) ∧ WsSuffix suff

/-! ## Lemmas about the grouping map -/

theorem mapGet_mapSet_self (m : List (String × List OWMForecastItem))
    (k : String) (v : List OWMForecastItem) : mapGet (mapSet m k v) k = some v := by
  induction m with
  | nil => simp [mapSet, mapGet]
  | cons p rest ih =>
    obtain ⟨k', v'⟩ := p
    by_cases h : k' = k
    · subst h; simp [mapSet, mapGet]
    · simp [mapSet, mapGet, h, ih]

theorem mapGet_mapSet_ne (m : List (String × List OWMForecastItem))
    {k k' : String} (v : List OWMForecastItem) (h : k' ≠ k) :
    mapGet (mapSet m k v) k' = mapGet m k' := by
  induction m with
  | nil => simp [mapSet, mapGet, Ne.symm h]
  | cons p rest ih =>
    obtain ⟨k'', v''⟩ := p
    by_cases h' : k'' = k
    · subst h'
      simp [mapSet, mapGet, Ne.symm h]
    · simp only [mapSet, if_neg h']
      by_cases h'' : k'' = k'
      · simp [mapGet, h'']
      · simp [mapGet, h'', ih]

theorem mem_keys_mapSet (m : List (String × List OWMForecastItem))
    (k : String) (v : List OWMForecastItem) (k' : String) :
    k' ∈ (mapSet m k v).map Prod.fst ↔ k' ∈ m.map Prod.fst ∨ k' = k := by
  induction m with
  | nil => simp [mapSet]
  | cons p rest ih =>
    obtain ⟨k'', v''⟩ := p
    by_cases h : k'' = k
    · subst h; simp [mapSet]; tauto
    · simp [mapSet, h, ih]; tauto

theorem nodup_keys_mapSet (m : List (String × List OWMForecastItem))
    (k : String) (v : List OWMForecastItem) (h : (m.map Prod.fst).Nodup) :
    ((mapSet m k v).map Prod.fst).Nodup := by
  induction m with
  | nil => simp [mapSet]
  | cons p rest ih =>
    obtain ⟨k'', v''⟩ := p
    simp only [List.map_cons, List.nodup_cons] at h
    by_cases h' : k'' = k
    · subst h'; simpa [mapSet] using h
    · simp only [mapSet, if_neg h', List.map_cons, List.nodup_cons]
      refine ⟨?_, ih h.2⟩
      intro hmem
      rcases (mem_keys_mapSet rest k v k'').mp hmem with hm | rfl
      · exact h.1 hm
      · exact h' rfl

theorem val_of_mem_mapSet {m : List (String × List OWMForecastItem)}
    {k : String} {v : List OWMForecastItem} {p : String × List OWMForecastItem}
    (hp : p ∈ mapSet m k v) : p.2 = v ∨ p ∈ m := by
  induction m with
  | nil => simp [mapSet] at hp; simp [hp]
  | cons q rest ih =>
    obtain ⟨k'', v''⟩ := q
    by_cases h : k'' = k
    · subst h
      rcases List.mem_cons.mp (by simpa [mapSet] using hp) with rfl | hp'
      · exact Or.inl rfl
      · exact Or.inr (List.mem_cons_of_mem _ hp')
    · rcases List.mem_cons.mp (by simpa [mapSet, h] using hp) with rfl | hp'
      · exact Or.inr (List.mem_cons_self _ _)
      · rcases ih hp' with h' | h'
        · exact Or.inl h'
        · exact Or.inr (List.mem_cons_of_mem _ h')

theorem mapGet_eq_some_of_mem_keys {m : List (String × List OWMForecastItem)}
    {k : String} (h : k ∈ m.map Prod.fst) :
    ∃ v, mapGet m k = some v ∧ (k, v) ∈ m := by
  induction m with
  | nil => simp at h
  | cons p rest ih =>
    obtain ⟨k', v'⟩ := p
    simp only [List.map_cons, List.mem_cons] at h
    by_cases h' : k' = k
    · subst h'
      exact ⟨v', by simp [mapGet], List.mem_cons_self _ _⟩
    · have hk : k ∈ rest.map Prod.fst := by
        rcases h with h'' | h''
        · exact absurd h''.symm h'
        · exact h''
      obtain ⟨v, hv, hmem⟩ := ih hk
      exact ⟨v, by simp [mapGet, h', hv], List.mem_cons_of_mem _ hmem⟩

theorem groupItems_getD (tz : Int) (items : List OWMForecastItem) :
    ∀ (m : List (String × List OWMForecastItem)) (k : String),
    (mapGet (groupItems tz items m) k).getD [] =
      (mapGet m k).getD [] ++
        items.filter (fun item => decide (dateKeyOfItem tz item = k)) := by
  induction items with
  | nil => intro m k; simp [groupItems]
  | cons item rest ih =>
    intro m k
    by_cases h : dateKeyOfItem tz item = k
    · rw [groupItems, ih, h, mapGet_mapSet_self]
      simp [List.filter_cons, h]
    · rw [groupItems, ih, mapGet_mapSet_ne _ _ (fun h' => h h'.symm)]
      simp [List.filter_cons, h]

theorem mem_keys_groupItems (tz : Int) (items : List OWMForecastItem) :
    ∀ (m : List (String × List OWMForecastItem)) (k : String),
    k ∈ (groupItems tz items m).map Prod.fst ↔
      k ∈ m.map Prod.fst ∨ k ∈ items.map (dateKeyOfItem tz) := by
  induction items with
  | nil => intro m k; simp [groupItems]
  | cons item rest ih =>
    intro m k
    rw [groupItems, ih, mem_keys_mapSet]
    simp only [List.map_cons, List.mem_cons]
    constructor
    · rintro (⟨h | rfl⟩ | h)
      · exact Or.inl h
      · exact Or.inr (Or.inl rfl)
      · exact Or.inr (Or.inr h)
    · rintro (h | h | h)
      · exact Or.inl (Or.inl h)
      · exact Or.inl (Or.inr h)
      · exact Or.inr h

theorem nodup_keys_groupItems (tz : Int) (items : List OWMForecastItem) :
    ∀ (m : List (String × List OWMForecastItem)),
    (m.map Prod.fst).Nodup → ((groupItems tz items m).map Prod.fst).Nodup := by
  induction items with
  | nil => intro m h; simpa [groupItems] using h
  | cons item rest ih =>
    intro m h
    rw [groupItems]
    exact ih _ (nodup_keys_mapSet _ _ _ h)

theorem buckets_ne_nil (tz : Int) (items : List OWMForecastItem) :
    ∀ (m : List (String × List OWMForecastItem)),
    (∀ p ∈ m, p.2 ≠ []) → ∀ p ∈ groupItems tz items m, p.2 ≠ [] := by
  induction items with
  | nil => intro m h; simpa [groupItems] using h
  | cons item rest ih =>
    intro m h
    rw [groupItems]
    refine ih _ ?_
    intro p hp
    rcases val_of_mem_mapSet hp with h' | h'
    · rw [h']; simp
    · exact h p h'

/-! ## Structure of the date list and the grouped map -/

theorem mem_keys_grouped {tz : Int} {items : List OWMForecastItem} {k : String} :
    k ∈ (groupItems tz items []).map Prod.fst ↔
      k ∈ items.map (dateKeyOfItem tz) := by
  rw [mem_keys_groupItems]; simp

theorem nodup_keys_grouped (tz : Int) (items : List OWMForecastItem) :
    ((groupItems tz items []).map Prod.fst).Nodup :=
  nodup_keys_groupItems tz items [] (by simp)

theorem grouped_getD (tz : Int) (items : List OWMForecastItem) (k : String) :
    (mapGet (groupItems tz items []) k).getD [] =
      items.filter (fun item => decide (dateKeyOfItem tz item = k)) := by
  rw [groupItems_getD]; simp [mapGet]

theorem sortKeys_keys_eq (tz : Int) (items : List OWMForecastItem) :
    sortKeys ((groupItems tz items []).map Prod.fst) =
      sortKeys (dayKeys tz items) := by
  apply sortKeys_eq_of_perm
  refine (List.perm_ext_iff_of_nodup (nodup_keys_grouped tz items)
    (List.nodup_dedup _)).mpr ?_
  intro a
  rw [mem_keys_grouped]
  exact List.mem_dedup.symm

theorem length_sortKeys_keys (tz : Int) (items : List OWMForecastItem) :
    (sortKeys ((groupItems tz items []).map Prod.fst)).length =
      (dayKeys tz items).length := by
  rw [sortKeys_keys_eq]
  exact (sortKeys_perm _).length_eq

theorem mem_sorted_keys {tz : Int} {items : List OWMForecastItem} {k : String} :
    k ∈ sortKeys ((groupItems tz items []).map Prod.fst) ↔
      k ∈ items.map (dateKeyOfItem tz) := by
  rw [mem_sortKeys, mem_keys_grouped]

theorem buildDay_date (tz now : Int) (grouped : List (String × List OWMForecastItem))
    (date : String) : (buildDay tz now grouped date).date = date := rfl

theorem buildDay_tempLow_le_tempHigh (tz now : Int)
    (grouped : List (String × List OWMForecastItem)) (date : String) :
    (buildDay tz now grouped date).tempLow ≤ (buildDay tz now grouped date).tempHigh :=
  jsRound_mono (listMin_le_listMax _)

/-- Case analysis: no backfill (some sorted key is at most today's key). -/
theorem forecast_no_backfill {tz now : Int} {items : List OWMForecastItem}
    {d0 : String} {rest' : List String}
    (hs : sortKeys ((groupItems tz items []).map Prod.fst) = d0 :: rest')
    (hn : ¬ strLt (dateKeyAt tz now) d0) :
    forecastDates tz now items = d0 :: rest' ∧
      forecastMap tz now items = groupItems tz items [] := by
  cases items with
  | nil =>
    exfalso
    have : (d0 :: rest' : List String) = [] := by
      rw [← hs]; rfl
    simp at this
  | cons first rest =>
    constructor
    · unfold forecastDates
      rw [hs]
      exact if_neg hn
    · unfold forecastMap
      rw [hs]
      exact if_neg hn

/-- Case analysis: backfill (today's key is strictly below the earliest). -/
theorem forecast_backfill {tz now : Int} {items : List OWMForecastItem}
    {first : OWMForecastItem} {rest : List OWMForecastItem}
    {d0 : String} {rest' : List String} (hitems : items = first :: rest)
    (hs : sortKeys ((groupItems tz items []).map Prod.fst) = d0 :: rest')
    (hlt : strLt (dateKeyAt tz now) d0) :
    forecastDates tz now items = dateKeyAt tz now :: d0 :: rest' ∧
      forecastMap tz now items =
        mapSet (groupItems tz items []) (dateKeyAt tz now) [first] := by
  subst hitems
  constructor
  · unfold forecastDates
    rw [hs]
    exact if_pos hlt
  · unfold forecastMap
    rw [hs]
    exact if_pos hlt

theorem sortKeys_keys_ne_nil (tz : Int) (first : OWMForecastItem)
    (rest : List OWMForecastItem) :
    sortKeys ((groupItems tz (first :: rest) []).map Prod.fst) ≠ [] := by
  intro h
  have hmem : dateKeyOfItem tz first ∈
      sortKeys ((groupItems tz (first :: rest) []).map Prod.fst) := by
    rw [mem_sorted_keys]
    simp
  rw [h] at hmem
  simp at hmem

theorem buildDay_hourly (tz now : Int) (g : List (String × List OWMForecastItem))
    (d : String) :
    (buildDay tz now g d).hourly = ((mapGet g d).getD []).map transformHourlyItem := rfl

theorem buildDay_condition (tz now : Int) (g : List (String × List OWMForecastItem))
    (d : String) :
    (buildDay tz now g d).condition =
      ((middayOf ((mapGet g d).getD [])).weather.headD wDefault).main := rfl

theorem buildDay_description (tz now : Int) (g : List (String × List OWMForecastItem))
    (d : String) :
    (buildDay tz now g d).description =
      ((middayOf ((mapGet g d).getD [])).weather.headD wDefault).description := rfl

theorem buildDay_icon (tz now : Int) (g : List (String × List OWMForecastItem))
    (d : String) :
    (buildDay tz now g d).icon =
      ((middayOf ((mapGet g d).getD [])).weather.headD wDefault).icon := rfl

theorem transform_map_date (tz now : Int) (items : List OWMForecastItem) :
    (transformForecastData tz now items).map DayForecast.date =
      (forecastDates tz now items).take 6 := by
  unfold transformForecastData
  rw [List.map_map]
  have h : DayForecast.date ∘ buildDay tz now (forecastMap tz now items) = id :=
    funext fun d => rfl
  rw [h, List.map_id]

theorem transform_length (tz now : Int) (items : List OWMForecastItem) :
    (transformForecastData tz now items).length =
      min 6 (forecastDates tz now items).length := by
  unfold transformForecastData
  rw [List.length_map, List.length_take]

theorem forecastDates_nil (tz now : Int) : forecastDates tz now [] = [] := rfl

theorem pairwise_strLt_forecastDates (tz now : Int) (items : List OWMForecastItem) :
    (forecastDates tz now items).Pairwise strLt := by
  cases items with
  | nil => rw [forecastDates_nil]; exact List.Pairwise.nil
  | cons first rest =>
    obtain ⟨d0, rest', hsd⟩ : ∃ d0 rest',
        sortKeys ((groupItems tz (first :: rest) []).map Prod.fst) = d0 :: rest' := by
      cases h : sortKeys ((groupItems tz (first :: rest) []).map Prod.fst) with
      | nil => exact absurd h (sortKeys_keys_ne_nil tz first rest)
      | cons d0 rest' => exact ⟨d0, rest', rfl⟩
    have hsorted : (d0 :: rest').Pairwise strLe := by
      rw [← hsd]; exact sorted_sortKeys _
    have hnodup : (d0 :: rest').Nodup := by
      rw [← hsd]; exact nodup_sortKeys (nodup_keys_grouped tz (first :: rest))
    have hstrict : (d0 :: rest').Pairwise strLt :=
      pairwise_strLt_of_sorted_nodup hsorted hnodup
    by_cases hlt : strLt (dateKeyAt tz now) d0
    · rw [(forecast_backfill rfl hsd hlt).1]
      refine List.Pairwise.cons ?_ hstrict
      intro x hx
      exact strLt_of_strLt_of_strLe hlt (head_min_of_sorted hsorted hx)
    · rw [(forecast_no_backfill hsd hlt).1]
      exact hstrict

theorem dates_bucket_ne_nil (tz now : Int) (items : List OWMForecastItem) :
    ∀ d ∈ forecastDates tz now items,
      (mapGet (forecastMap tz now items) d).getD [] ≠ [] := by
  cases items with
  | nil => rw [forecastDates_nil]; intro d hd; simp at hd
  | cons first rest =>
    obtain ⟨d0, rest', hsd⟩ : ∃ d0 rest',
        sortKeys ((groupItems tz (first :: rest) []).map Prod.fst) = d0 :: rest' := by
      cases h : sortKeys ((groupItems tz (first :: rest) []).map Prod.fst) with
      | nil => exact absurd h (sortKeys_keys_ne_nil tz first rest)
      | cons d0 rest' => exact ⟨d0, rest', rfl⟩
    have hsorted : (d0 :: rest').Pairwise strLe := by
      rw [← hsd]; exact sorted_sortKeys _
    have hkey : ∀ d ∈ d0 :: rest',
        (mapGet (groupItems tz (first :: rest) []) d).getD [] ≠ [] := by
      intro d hd
      have hdk : d ∈ (groupItems tz (first :: rest) []).map Prod.fst := by
        rw [← mem_sortKeys (l := (groupItems tz (first :: rest) []).map Prod.fst)]
        rw [hsd]; exact hd
      obtain ⟨v, hv, hmem⟩ := mapGet_eq_some_of_mem_keys hdk
      rw [hv]
      exact buckets_ne_nil tz (first :: rest) [] (by simp) _ hmem
    by_cases hlt : strLt (dateKeyAt tz now) d0
    · obtain ⟨hdates, hmap⟩ := forecast_backfill rfl hsd hlt
      rw [hdates, hmap]
      intro d hd
      rcases List.mem_cons.mp hd with rfl | hd'
      · rw [mapGet_mapSet_self]; simp
      · have hne : d ≠ dateKeyAt tz now := by
          have : strLt (dateKeyAt tz now) d :=
            strLt_of_strLt_of_strLe hlt (head_min_of_sorted hsorted hd')
          exact fun he => (strLt_iff.mp this).2 he.symm
        rw [mapGet_mapSet_ne _ _ hne]
        exact hkey d hd'
    · obtain ⟨hdates, hmap⟩ := forecast_no_backfill hsd hlt
      rw [hdates, hmap]
      exact hkey

theorem mem_transform (tz now : Int) (items : List OWMForecastItem)
    {f : DayForecast} (hf : f ∈ transformForecastData tz now items) :
    ∃ d ∈ (forecastDates tz now items).take 6,
      f = buildDay tz now (forecastMap tz now items) d := by
  unfold transformForecastData at hf
  obtain ⟨d, hd, hfd⟩ := List.mem_map.mp hf
  exact ⟨d, hd, hfd.symm⟩

/-! ## Claim theorems -/

/-- C6: `transformForecastData` applied to the empty sample list returns the
empty sequence; being a total Lean function, it signals no error. -/
theorem transformForecastData_empty_eq_nil (tz now : Int) :
    transformForecastData tz now [] = [] := rfl

/-- C9: for a raw sample whose precipitation probability lies in [0, 1], the
produced `HourlyWeather` has `pop` in [0, 100] (the fraction scaled by 100
and rounded), its `temp`, `feelsLike` and `windSpeed` are integers, and
`humidity` is passed through unchanged. -/
theorem transformHourlyItem_spec (item : OWMForecastItem)
    (h0 : 0 ≤ item.pop) (h1 : item.pop ≤ 1) :
    0 ≤ (transformHourlyItem item).pop ∧ (transformHourlyItem item).pop ≤ 100 ∧
    (transformHourlyItem item).pop = jsRound (qMul item.pop 100) ∧
    (∃ k : ℤ, (transformHourlyItem item).temp = (k : ℚ)) ∧
    (∃ k : ℤ, (transformHourlyItem item).feelsLike = (k : ℚ)) ∧
    (∃ k : ℤ, (transformHourlyItem item).windSpeed = (k : ℚ)) ∧
    (transformHourlyItem item).humidity = item.main.humidity := by
  refine ⟨?_, ?_, rfl, jsRound_isInt _, jsRound_isInt _, jsRound_isInt _, rfl⟩
  · show (0 : ℚ) ≤ jsRound (qMul item.pop 100)
    rw [jsRound_eq, qMul_eq]
    have h : (0 : ℚ) ≤ item.pop * 100 + 1/2 := by nlinarith
    have hfl : (0 : ℤ) ≤ ⌊item.pop * 100 + 1/2⌋ := Int.floor_nonneg.mpr h
    exact_mod_cast hfl
  · show jsRound (qMul item.pop 100) ≤ (100 : ℚ)
    rw [jsRound_eq, qMul_eq]
    have h : item.pop * 100 + 1/2 ≤ (100 : ℚ) + 1/2 := by nlinarith
    have hfl : ⌊item.pop * 100 + 1/2⌋ ≤ ⌊(100 : ℚ) + 1/2⌋ := Int.floor_le_floor h
    have h100 : ⌊(100 : ℚ) + 1/2⌋ = 100 := by
      have he : ((100 : ℚ) + 1/2) = ((201 : ℤ) : ℚ) / ((2 : ℕ) : ℚ) := by norm_num
      rw [he, Rat.floor_intCast_div_natCast]
      decide
    rw [h100] at hfl
    exact_mod_cast hfl

/-- C9 witness at a concrete sample with `pop = 1/2`. -/
theorem transformHourlyItem_spec_witness :
    (0 : ℚ) ≤ mkRat 1 2 ∧ mkRat 1 2 ≤ 1 ∧
    (0 ≤ (transformHourlyItem ⟨0, ⟨mkRat 5 2, 2, 60⟩, [⟨"Rain", "light rain", "10d"⟩],
        ⟨3⟩, mkRat 1 2, "2024-01-15 12:00:00"⟩).pop ∧
      (transformHourlyItem ⟨0, ⟨mkRat 5 2, 2, 60⟩, [⟨"Rain", "light rain", "10d"⟩],
        ⟨3⟩, mkRat 1 2, "2024-01-15 12:00:00"⟩).pop ≤ 100 ∧
      (transformHourlyItem ⟨0, ⟨mkRat 5 2, 2, 60⟩, [⟨"Rain", "light rain", "10d"⟩],
        ⟨3⟩, mkRat 1 2, "2024-01-15 12:00:00"⟩).pop =
        jsRound (qMul (mkRat 1 2) 100) ∧
      (∃ k : ℤ, (transformHourlyItem ⟨0, ⟨mkRat 5 2, 2, 60⟩,
        [⟨"Rain", "light rain", "10d"⟩], ⟨3⟩, mkRat 1 2,
        "2024-01-15 12:00:00"⟩).temp = (k : ℚ)) ∧
      (∃ k : ℤ, (transformHourlyItem ⟨0, ⟨mkRat 5 2, 2, 60⟩,
        [⟨"Rain", "light rain", "10d"⟩], ⟨3⟩, mkRat 1 2,
        "2024-01-15 12:00:00"⟩).feelsLike = (k : ℚ)) ∧
      (∃ k : ℤ, (transformHourlyItem ⟨0, ⟨mkRat 5 2, 2, 60⟩,
        [⟨"Rain", "light rain", "10d"⟩], ⟨3⟩, mkRat 1 2,
        "2024-01-15 12:00:00"⟩).windSpeed = (k : ℚ)) ∧
      (transformHourlyItem ⟨0, ⟨mkRat 5 2, 2, 60⟩, [⟨"Rain", "light rain", "10d"⟩],
        ⟨3⟩, mkRat 1 2, "2024-01-15 12:00:00"⟩).humidity = 60) :=
  ⟨by decide, by decide,
   transformHourlyItem_spec _ (by decide) (by decide)⟩

/-- C4: for every input, the output has at most six entries, its date keys
are strictly ascending (hence pairwise distinct), and every summary has
`tempLow ≤ tempHigh` and a non-empty hourly list. -/
theorem transformForecastData_invariants (tz now : Int)
    (items : List OWMForecastItem) :
    (transformForecastData tz now items).length ≤ 6 ∧
    ((transformForecastData tz now items).map DayForecast.date).Pairwise strLt ∧
    ((transformForecastData tz now items).map DayForecast.date).Nodup ∧
    ∀ f ∈ transformForecastData tz now items,
      f.tempLow ≤ f.tempHigh ∧ f.hourly ≠ [] := by
  have hdates : ((transformForecastData tz now items).map DayForecast.date).Pairwise
      strLt := by
    rw [transform_map_date]
    exact (pairwise_strLt_forecastDates tz now items).sublist
      (List.take_sublist 6 _)
  refine ⟨?_, hdates, ?_, ?_⟩
  · rw [transform_length]
    exact min_le_left 6 _
  · exact hdates.imp fun h => (strLt_iff.mp h).2
  · intro f hf
    obtain ⟨d, hd, rfl⟩ := mem_transform tz now items hf
    refine ⟨buildDay_tempLow_le_tempHigh tz now _ d, ?_⟩
    rw [buildDay_hourly]
    have hne := dates_bucket_ne_nil tz now items d
      ((List.take_sublist 6 _).mem hd)
    simpa using hne

theorem exists_sorted_cons (tz : Int) (first : OWMForecastItem)
    (rest : List OWMForecastItem) :
    ∃ d0 rest', sortKeys ((groupItems tz (first :: rest) []).map Prod.fst) =
      d0 :: rest' := by
  cases h : sortKeys ((groupItems tz (first :: rest) []).map Prod.fst) with
  | nil => exact absurd h (sortKeys_keys_ne_nil tz first rest)
  | cons d0 rest' => exact ⟨d0, rest', rfl⟩

theorem strLe_head_of_item {tz : Int} {items : List OWMForecastItem}
    {d0 : String} {rest' : List String}
    (hsd : sortKeys ((groupItems tz items []).map Prod.fst) = d0 :: rest')
    {item : OWMForecastItem} (hitem : item ∈ items) :
    strLe d0 (dateKeyOfItem tz item) := by
  have hsorted : (d0 :: rest').Pairwise strLe := hsd ▸ sorted_sortKeys _
  apply head_min_of_sorted hsorted
  rw [← hsd, mem_sorted_keys]
  exact List.mem_map_of_mem _ hitem

theorem eq_singleton_of_nodup {l : List String} {k : String} (hn : l.Nodup)
    (hall : ∀ x ∈ l, x = k) (hk : k ∈ l) : l = [k] := by
  cases l with
  | nil => simp at hk
  | cons x xs =>
    have hx : x = k := hall x (List.mem_cons_self x xs)
    subst hx
    cases xs with
    | nil => rfl
    | cons y ys =>
      exfalso
      have hy : y = x := hall y (by simp)
      simp [hy] at hn

theorem bucket_eq_filter (tz now : Int) (items : List OWMForecastItem) :
    ∀ d ∈ forecastDates tz now items,
    items.filter (fun item => decide (dateKeyOfItem tz item = d)) ≠ [] →
    (mapGet (forecastMap tz now items) d).getD [] =
      items.filter (fun item => decide (dateKeyOfItem tz item = d)) := by
  cases items with
  | nil => intro d hd; rw [forecastDates_nil] at hd; simp at hd
  | cons first rest =>
    obtain ⟨d0, rest', hsd⟩ := exists_sorted_cons tz first rest
    by_cases hlt : strLt (dateKeyAt tz now) d0
    · obtain ⟨hdates, hmap⟩ := forecast_backfill rfl hsd hlt
      rw [hdates, hmap]
      intro d hd hbne
      rcases List.mem_cons.mp hd with rfl | hd'
      · exfalso
        apply hbne
        rw [List.filter_eq_nil_iff]
        intro item hitem
        have hstep : strLt (dateKeyAt tz now) (dateKeyOfItem tz item) :=
          strLt_of_strLt_of_strLe hlt (strLe_head_of_item hsd hitem)
        simp only [decide_eq_true_eq]
        exact fun he => (strLt_iff.mp hstep).2 he.symm
      · have hsorted : (d0 :: rest').Pairwise strLe := hsd ▸ sorted_sortKeys _
        have hne : d ≠ dateKeyAt tz now := by
          have hstep : strLt (dateKeyAt tz now) d :=
            strLt_of_strLt_of_strLe hlt (head_min_of_sorted hsorted hd')
          exact fun he => (strLt_iff.mp hstep).2 he.symm
        rw [mapGet_mapSet_ne _ _ hne]
        exact grouped_getD tz (first :: rest) d
    · obtain ⟨hdates, hmap⟩ := forecast_no_backfill hsd hlt
      rw [hdates, hmap]
      intro d _ _
      exact grouped_getD tz (first :: rest) d

/-! ## Concrete samples used by witnesses and counterexamples -/

/-- A sample on 1970-01-03, 09:00 UTC. -/
def sampleDay3a : OWMForecastItem :=
  ⟨86400 * 2 + 3600 * 9, ⟨5, 4, 50⟩, [⟨"Clear", "clear sky", "01d"⟩], ⟨3⟩, 0,
   "1970-01-03 09:00:00"⟩

/-- A sample on 1970-01-02, 06:00 UTC. -/
def sampleDay2a : OWMForecastItem :=
  ⟨86400 + 3600 * 6, ⟨1, 0, 80⟩, [⟨"Rain", "light rain", "10d"⟩], ⟨5⟩, 0,
   "1970-01-02 06:00:00"⟩

/-- A sample on 1970-01-01, 09:00 UTC, condition `"Alpha"`. -/
def sampleDay1a : OWMForecastItem :=
  ⟨3600 * 9, ⟨7, 6, 40⟩, [⟨"Alpha", "alpha sky", "01d"⟩], ⟨2⟩, 0,
   "1970-01-01 09:00:00"⟩

/-- A sample on 1970-01-01, 15:00 UTC, condition `"Beta"`. -/
def sampleDay1b : OWMForecastItem :=
  ⟨3600 * 15, ⟨9, 8, 60⟩, [⟨"Beta", "beta sky", "02d"⟩], ⟨4⟩, 0,
   "1970-01-01 15:00:00"⟩

/-- A sample on 1970-01-01, 12:00 UTC, condition `"Noon"`. -/
def sampleDay1noon : OWMForecastItem :=
  ⟨3600 * 12, ⟨8, 7, 55⟩, [⟨"Noon", "noon sky", "03d"⟩], ⟨3⟩, 0,
   "1970-01-01 12:00:00"⟩

/-- C1 (amended): whenever the input is empty or some sample's local date key
is at most today's key (so the today-backfill does not trigger), the output
date keys are exactly the first six distinct sample date keys in ascending
lexicographic order, and the output length is `min N 6` for `N` the number of
distinct local calendar days spanned. -/
theorem transformForecastData_day_count (tz now : Int)
    (items : List OWMForecastItem)
    (h : items = [] ∨
      ∃ item ∈ items, ¬ strLt (dateKeyAt tz now) (dateKeyOfItem tz item)) :
    (transformForecastData tz now items).map DayForecast.date =
      (sortKeys (dayKeys tz items)).take 6 ∧
    (transformForecastData tz now items).length =
      min (dayKeys tz items).length 6 := by
  cases items with
  | nil =>
    constructor
    · rfl
    · show (0 : Nat) = min 0 6
      decide
  | cons first rest =>
    rcases h with habs | ⟨item, hmem, hnot⟩
    · exact absurd habs (by simp)
    · obtain ⟨d0, rest', hsd⟩ := exists_sorted_cons tz first rest
      have hnlt : ¬ strLt (dateKeyAt tz now) d0 := by
        intro hlt
        exact hnot (strLt_of_strLt_of_strLe hlt (strLe_head_of_item hsd hmem))
      obtain ⟨hdates, _⟩ := forecast_no_backfill hsd hnlt
      constructor
      · rw [transform_map_date, hdates, ← hsd, sortKeys_keys_eq]
      · rw [transform_length, hdates]
        have hlen : (d0 :: rest').length = (dayKeys tz (first :: rest)).length := by
          rw [← hsd]; exact length_sortKeys_keys tz (first :: rest)
        simp only [List.length_cons] at hlen ⊢
        omega

/-- C1 witness: two samples on 1970-01-02 and 1970-01-03 queried on
1970-01-03. -/
theorem transformForecastData_day_count_witness :
    (transformForecastData 0 172800 [sampleDay3a, sampleDay2a]).map
        DayForecast.date =
      (sortKeys (dayKeys 0 [sampleDay3a, sampleDay2a])).take 6 ∧
    (transformForecastData 0 172800 [sampleDay3a, sampleDay2a]).length =
      min (dayKeys 0 [sampleDay3a, sampleDay2a]).length 6 :=
  transformForecastData_day_count 0 172800 [sampleDay3a, sampleDay2a]
    (Or.inr ⟨sampleDay3a, by decide, by decide⟩)

/-- C1 counterexample: a list spanning one distinct local day that lies
entirely after today yields two summaries, not one. -/
theorem transformForecastData_day_count_cx :
    (dayKeys 0 [sampleDay3a]).length = 1 ∧
    (transformForecastData 0 0 [sampleDay3a]).length = 2 := by decide

/-- C2: when every sample's local date key is strictly greater than today's
key (equivalently, the earliest one is), the first summary is for today's
key, its hourly list is exactly the transform of the first raw sample, and
the output length is `min (N + 1) 6` — the synthesized entry counts toward
the six-summary cap. -/
theorem transformForecastData_backfill_spec (tz now : Int)
    (items : List OWMForecastItem) (first : OWMForecastItem)
    (rest : List OWMForecastItem) (hitems : items = first :: rest)
    (hall : ∀ item ∈ items, strLt (dateKeyAt tz now) (dateKeyOfItem tz item)) :
    ((transformForecastData tz now items).headD defaultForecast).date =
      dateKeyAt tz now ∧
    ((transformForecastData tz now items).headD defaultForecast).hourly =
      [transformHourlyItem first] ∧
    (transformForecastData tz now items).length =
      min ((dayKeys tz items).length + 1) 6 := by
  subst hitems
  obtain ⟨d0, rest', hsd⟩ := exists_sorted_cons tz first rest
  have hlt : strLt (dateKeyAt tz now) d0 := by
    have hd0 : d0 ∈ (first :: rest).map (dateKeyOfItem tz) := by
      rw [← @mem_sorted_keys tz (first :: rest) d0, hsd]
      exact List.mem_cons_self _ _
    obtain ⟨item, hmem, hkey⟩ := List.mem_map.mp hd0
    exact hkey ▸ hall item hmem
  obtain ⟨hdates, hmap⟩ := forecast_backfill rfl hsd hlt
  have hout : transformForecastData tz now (first :: rest) =
      buildDay tz now (forecastMap tz now (first :: rest)) (dateKeyAt tz now) ::
        ((d0 :: rest').take 5).map
          (buildDay tz now (forecastMap tz now (first :: rest))) := by
    unfold transformForecastData
    rw [hdates]
    rfl
  refine ⟨by rw [hout]; rfl, ?_, ?_⟩
  · rw [hout]
    show (buildDay tz now (forecastMap tz now (first :: rest))
      (dateKeyAt tz now)).hourly = _
    rw [buildDay_hourly, hmap, mapGet_mapSet_self]
    rfl
  · rw [transform_length, hdates]
    have hlen : (d0 :: rest').length = (dayKeys tz (first :: rest)).length := by
      rw [← hsd]; exact length_sortKeys_keys tz (first :: rest)
    simp only [List.length_cons] at hlen ⊢
    omega

/-- C2 witness: a single sample on 1970-01-03 queried on 1970-01-01. -/
theorem transformForecastData_backfill_spec_witness :
    ((transformForecastData 0 0 [sampleDay3a]).headD defaultForecast).date =
      dateKeyAt 0 0 ∧
    ((transformForecastData 0 0 [sampleDay3a]).headD defaultForecast).hourly =
      [transformHourlyItem sampleDay3a] ∧
    (transformForecastData 0 0 [sampleDay3a]).length =
      min ((dayKeys 0 [sampleDay3a]).length + 1) 6 :=
  transformForecastData_backfill_spec 0 0 [sampleDay3a] sampleDay3a [] rfl
    (by decide)

/-- C3 (amended): a non-empty sample list confined to a single local calendar
day that is not strictly after today yields exactly one summary, whose hourly
list has the input's length and which satisfies `tempLow ≤ tempHigh`. -/
theorem transformForecastData_single_day (tz now : Int)
    (items : List OWMForecastItem) (first : OWMForecastItem)
    (rest : List OWMForecastItem) (k : String) (hitems : items = first :: rest)
    (hsame : ∀ item ∈ items, dateKeyOfItem tz item = k)
    (hk : ¬ strLt (dateKeyAt tz now) k) :
    (transformForecastData tz now items).length = 1 ∧
    ((transformForecastData tz now items).headD defaultForecast).hourly.length =
      items.length ∧
    ((transformForecastData tz now items).headD defaultForecast).tempLow ≤
      ((transformForecastData tz now items).headD defaultForecast).tempHigh := by
  subst hitems
  have hkeys : (groupItems tz (first :: rest) []).map Prod.fst = [k] := by
    apply eq_singleton_of_nodup (nodup_keys_grouped tz (first :: rest))
    · intro x hx
      rw [mem_keys_grouped] at hx
      obtain ⟨item, hmem, hkey⟩ := List.mem_map.mp hx
      exact hkey.symm.trans (hsame item hmem)
    · rw [mem_keys_grouped]
      exact List.mem_map.mpr ⟨first, List.mem_cons_self _ _,
        hsame first (List.mem_cons_self _ _)⟩
  have hsd : sortKeys ((groupItems tz (first :: rest) []).map Prod.fst) = [k] := by
    rw [hkeys]; rfl
  obtain ⟨hdates, hmap⟩ := forecast_no_backfill hsd hk
  have hout : transformForecastData tz now (first :: rest) =
      [buildDay tz now (forecastMap tz now (first :: rest)) k] := by
    unfold transformForecastData
    rw [hdates]
    rfl
  have hbucket : (mapGet (forecastMap tz now (first :: rest)) k).getD [] =
      first :: rest := by
    rw [hmap, grouped_getD]
    apply List.filter_eq_self.mpr
    intro a ha
    simp [hsame a ha]
  refine ⟨by rw [hout]; rfl, ?_, ?_⟩
  · rw [hout]
    show (buildDay tz now (forecastMap tz now (first :: rest)) k).hourly.length = _
    rw [buildDay_hourly, hbucket, List.length_map]
  · rw [hout]
    exact buildDay_tempLow_le_tempHigh tz now _ k

/-- C3 witness: two same-day samples on 1970-01-01 queried at noon that day. -/
theorem transformForecastData_single_day_witness :
    (transformForecastData 0 43200 [sampleDay1a, sampleDay1b]).length = 1 ∧
    ((transformForecastData 0 43200
        [sampleDay1a, sampleDay1b]).headD defaultForecast).hourly.length =
      ([sampleDay1a, sampleDay1b] : List OWMForecastItem).length ∧
    ((transformForecastData 0 43200
        [sampleDay1a, sampleDay1b]).headD defaultForecast).tempLow ≤
      ((transformForecastData 0 43200
        [sampleDay1a, sampleDay1b]).headD defaultForecast).tempHigh :=
  transformForecastData_single_day 0 43200 [sampleDay1a, sampleDay1b]
    sampleDay1a [sampleDay1b] "1970-01-01" rfl (by decide) (by decide)

/-- C3 counterexample: a one-day sample list lying entirely after today
produces two summaries, not exactly one. -/
theorem transformForecastData_single_day_cx :
    (∀ item ∈ [sampleDay3a], dateKeyOfItem 0 item = "1970-01-03") ∧
    (transformForecastData 0 0 [sampleDay3a]).length = 2 := by decide

/-- C5 (amended): for every produced summary, taking the bucket of input
samples sharing its date key (non-empty for every non-synthesized summary),
`condition`/`description`/`icon` come from the first bucket sample whose
`dt_txt` contains `"12:00:00"`; when no bucket sample does, from the bucket
element at index `⌊length / 2⌋` — for even-sized buckets the *later* of the
two middle elements. -/
theorem representative_selection_spec (tz now : Int)
    (items : List OWMForecastItem) (f : DayForecast)
    (hf : f ∈ transformForecastData tz now items) :
    (∀ s, (items.filter
        (fun item => decide (dateKeyOfItem tz item = f.date))).find?
        (fun item => hasSeq ("12:00:00").data item.dt_txt.data) = some s →
      f.condition = (s.weather.headD wDefault).main ∧
      f.description = (s.weather.headD wDefault).description ∧
      f.icon = (s.weather.headD wDefault).icon) ∧
    ((items.filter (fun item => decide (dateKeyOfItem tz item = f.date))) ≠ [] →
      (items.filter (fun item => decide (dateKeyOfItem tz item = f.date))).find?
        (fun item => hasSeq ("12:00:00").data item.dt_txt.data) = none →
      f.condition = (((items.filter
          (fun item => decide (dateKeyOfItem tz item = f.date))).getD
          ((items.filter
            (fun item => decide (dateKeyOfItem tz item = f.date))).length / 2)
          defaultItem).weather.headD wDefault).main ∧
      f.description = (((items.filter
          (fun item => decide (dateKeyOfItem tz item = f.date))).getD
          ((items.filter
            (fun item => decide (dateKeyOfItem tz item = f.date))).length / 2)
          defaultItem).weather.headD wDefault).description ∧
      f.icon = (((items.filter
          (fun item => decide (dateKeyOfItem tz item = f.date))).getD
          ((items.filter
            (fun item => decide (dateKeyOfItem tz item = f.date))).length / 2)
          defaultItem).weather.headD wDefault).icon) := by
  obtain ⟨d, hd, rfl⟩ := mem_transform tz now items hf
  simp only [buildDay_date]
  have hdmem : d ∈ forecastDates tz now items :=
    (List.take_sublist 6 _).mem hd
  constructor
  · intro s hfind
    have hbne : items.filter (fun item => decide (dateKeyOfItem tz item = d)) ≠ [] := by
      intro hnil
      rw [hnil] at hfind
      simp at hfind
    have hbucket := bucket_eq_filter tz now items d hdmem hbne
    rw [buildDay_condition, buildDay_description, buildDay_icon, hbucket]
    unfold middayOf
    rw [hfind]
    exact ⟨rfl, rfl, rfl⟩
  · intro hbne hnone
    have hbucket := bucket_eq_filter tz now items d hdmem hbne
    rw [buildDay_condition, buildDay_description, buildDay_icon, hbucket]
    unfold middayOf
    rw [hnone]
    exact ⟨rfl, rfl, rfl⟩

/-- C5 witness: three same-day samples at 09:00, 12:00, 15:00 with distinct
conditions — the summary's condition and description are those of the 12:00
sample. -/
theorem representative_selection_spec_witness :
    ((transformForecastData 0 43200
        [sampleDay1a, sampleDay1noon, sampleDay1b]).headD
        defaultForecast).condition = "Noon" ∧
    ((transformForecastData 0 43200
        [sampleDay1a, sampleDay1noon, sampleDay1b]).headD
        defaultForecast).description = "noon sky" := by
  have h := representative_selection_spec 0 43200
    [sampleDay1a, sampleDay1noon, sampleDay1b]
    ((transformForecastData 0 43200
      [sampleDay1a, sampleDay1noon, sampleDay1b]).headD defaultForecast)
    (by decide)
  have h2 := h.1 sampleDay1noon (by decide)
  exact ⟨h2.1.trans (by decide), h2.2.1.trans (by decide)⟩

/-- C5 counterexample: an even-sized bucket with no `"12:00:00"` sample takes
its condition from the later of the two middle elements, not the earlier. -/
theorem representative_selection_cx :
    List.find? (fun item => hasSeq ("12:00:00").data item.dt_txt.data)
      [sampleDay1a, sampleDay1b] = none ∧
    ((transformForecastData 0 43200 [sampleDay1a, sampleDay1b]).headD
        defaultForecast).condition = (sampleDay1b.weather.headD wDefault).main ∧
    ((transformForecastData 0 43200 [sampleDay1a, sampleDay1b]).headD
        defaultForecast).condition ≠ (sampleDay1a.weather.headD wDefault).main := by
  decide

/-- C10: when the today-backfill triggers, the first raw sample is not
removed from its original bucket: its transform is both the sole hourly
record of the synthesized today summary and an hourly record of whichever
kept summary carries the sample's actual local date key. -/
theorem backfill_retains_first_sample (tz now : Int)
    (items : List OWMForecastItem) (first : OWMForecastItem)
    (rest : List OWMForecastItem) (hitems : items = first :: rest)
    (hall : ∀ item ∈ items, strLt (dateKeyAt tz now) (dateKeyOfItem tz item)) :
    ((transformForecastData tz now items).headD defaultForecast).hourly =
      [transformHourlyItem first] ∧
    ∀ f ∈ transformForecastData tz now items,
      f.date = dateKeyOfItem tz first →
      transformHourlyItem first ∈ f.hourly := by
  subst hitems
  obtain ⟨d0, rest', hsd⟩ := exists_sorted_cons tz first rest
  have hlt : strLt (dateKeyAt tz now) d0 := by
    have hd0 : d0 ∈ (first :: rest).map (dateKeyOfItem tz) := by
      rw [← @mem_sorted_keys tz (first :: rest) d0, hsd]
      exact List.mem_cons_self _ _
    obtain ⟨item, hmem, hkey⟩ := List.mem_map.mp hd0
    exact hkey ▸ hall item hmem
  obtain ⟨hdates, hmap⟩ := forecast_backfill rfl hsd hlt
  constructor
  · have hout : transformForecastData tz now (first :: rest) =
        buildDay tz now (forecastMap tz now (first :: rest)) (dateKeyAt tz now) ::
          ((d0 :: rest').take 5).map
            (buildDay tz now (forecastMap tz now (first :: rest))) := by
      unfold transformForecastData
      rw [hdates]
      rfl
    rw [hout]
    show (buildDay tz now (forecastMap tz now (first :: rest))
      (dateKeyAt tz now)).hourly = _
    rw [buildDay_hourly, hmap, mapGet_mapSet_self]
    rfl
  · intro f hf hdate
    obtain ⟨d, hd, rfl⟩ := mem_transform tz now (first :: rest) hf
    rw [buildDay_date] at hdate
    subst hdate
    have hdmem : dateKeyOfItem tz first ∈ forecastDates tz now (first :: rest) :=
      (List.take_sublist 6 _).mem hd
    have hfmem : first ∈ (first :: rest).filter
        (fun item => decide (dateKeyOfItem tz item = dateKeyOfItem tz first)) :=
      List.mem_filter.mpr ⟨List.mem_cons_self _ _, by simp⟩
    have hbne : (first :: rest).filter
        (fun item => decide (dateKeyOfItem tz item = dateKeyOfItem tz first)) ≠ [] :=
      List.ne_nil_of_mem hfmem
    have hbucket := bucket_eq_filter tz now (first :: rest) _ hdmem hbne
    rw [buildDay_hourly, hbucket]
    exact List.mem_map_of_mem _ hfmem

/-- C10 witness: a single sample on 1970-01-03 queried on 1970-01-01 appears
both as the synthesized today entry's only record and in the summary for its
own day. -/
theorem backfill_retains_first_sample_witness :
    ((transformForecastData 0 0 [sampleDay3a]).headD defaultForecast).hourly =
      [transformHourlyItem sampleDay3a] ∧
    transformHourlyItem sampleDay3a ∈
      ((transformForecastData 0 0 [sampleDay3a]).getD 1 defaultForecast).hourly := by
  have h := backfill_retains_first_sample 0 0 [sampleDay3a] sampleDay3a [] rfl
    (by decide)
  exact ⟨h.1, h.2 _ (by decide) (by decide)⟩

/-! ## Classifier refinement lemmas -/

theorem letter_not_digit {c : Char} (h : isAsciiLetter c = true) :
    isAsciiDigit c = false := by
  simp only [isAsciiLetter, Bool.or_eq_true, Bool.and_eq_true,
    decide_eq_true_eq] at h
  simp only [isAsciiDigit, Bool.and_eq_true, decide_eq_true_eq,
    Bool.and_eq_false_iff, decide_eq_false_iff_not]
  omega

theorem letter_not_ws {c : Char} (h : isAsciiLetter c = true) :
    isJsWs c = false := by
  simp only [isAsciiLetter, Bool.or_eq_true, Bool.and_eq_true,
    decide_eq_true_eq] at h
  simp only [isJsWs, Bool.or_eq_false_iff, Bool.and_eq_false_iff,
    beq_eq_false_iff_ne, ne_eq, decide_eq_false_iff_not]
  omega

theorem toNat_eq_comma {c : Char} : c.toNat = 44 ↔ c = ',' := by
  constructor
  · intro h
    apply Char.ext
    apply UInt32.ext
    have e1 : c.toNat = c.val.toNat := rfl
    have e2 : (',' : Char).toNat = (',' : Char).val.toNat := rfl
    have e3 : (',' : Char).toNat = 44 := by decide
    omega
  · rintro rfl; decide

theorem zipTest_iff {cs : List Char} : zipTest cs = true ↔ ZipShape cs := by
  unfold zipTest ZipShape
  rw [Bool.and_eq_true, List.all_eq_true, beq_iff_eq]

theorem takeWhile_append_of_all {p : Char → Bool} {l₁ l₂ : List Char}
    (h : ∀ x ∈ l₁, p x = true) :
    (l₁ ++ l₂).takeWhile p = l₁ ++ l₂.takeWhile p ∧
    (l₁ ++ l₂).dropWhile p = l₂.dropWhile p := by
  induction l₁ with
  | nil => exact ⟨rfl, rfl⟩
  | cons c l₁ ih =>
    have hc : p c = true := h c (List.mem_cons_self _ _)
    have ih' := ih fun x hx => h x (List.mem_cons_of_mem _ hx)
    constructor
    · rw [List.cons_append, List.takeWhile_cons, hc, if_pos rfl, ih'.1,
        List.cons_append]
    · rw [List.cons_append, List.dropWhile_cons, hc, if_pos rfl, ih'.2]

theorem wsClass_to_inCityClass {c : Char} (h : WsCityClass c) :
    inCityClass c = true := by
  unfold inCityClass
  rcases h with h | h | h | h | h <;> simp [h]

theorem inCityClass_to_wsClass {c : Char} (h : inCityClass c = true) :
    WsCityClass c := by
  unfold inCityClass at h
  unfold WsCityClass
  simp only [Bool.or_eq_true, beq_iff_eq] at h
  tauto

theorem comma_not_inCityClass : inCityClass ',' = false := by decide

theorem matchesCity_iff {cs : List Char} : matchesCity cs = true ↔ WsCity cs := by
  constructor
  · intro h
    cases cs with
    | nil => simp [matchesCity] at h
    | cons c rest =>
      unfold matchesCity at h
      simp only [Bool.and_eq_true, decide_eq_true_eq] at h
      obtain ⟨⟨hc, hlen⟩, hrem⟩ := h
      have hsplit : rest.takeWhile inCityClass ++ rest.dropWhile inCityClass =
          rest := List.takeWhile_append_dropWhile inCityClass rest
      have hbody : ∀ x ∈ rest.takeWhile inCityClass, WsCityClass x :=
        fun x hx => inCityClass_to_wsClass (List.mem_takeWhile_imp hx)
      cases hrm : rest.dropWhile inCityClass with
      | nil =>
        refine ⟨c, rest.takeWhile inCityClass, [], ?_, hc, hlen, hbody, Or.inl rfl⟩
        rw [List.append_nil]
        rw [hrm, List.append_nil] at hsplit
        rw [hsplit]
      | cons d tail =>
        rw [hrm] at hrem
        simp only [Bool.and_eq_true, beq_iff_eq] at hrem
        obtain ⟨hd, htail⟩ := hrem
        have hd' : d = ',' := toNat_eq_comma.mp hd
        subst hd'
        match tail, htail with
        | [a, b], htail =>
          simp only [stateTail, Bool.and_eq_true] at htail
          refine ⟨c, rest.takeWhile inCityClass, [',', a, b], ?_, hc, hlen,
            hbody, Or.inr ⟨a, b, htail.1, htail.2, Or.inl rfl⟩⟩
          rw [← hrm, hsplit]
        | [w, a, b], htail =>
          simp only [stateTail, Bool.and_eq_true] at htail
          refine ⟨c, rest.takeWhile inCityClass, [',', w, a, b], ?_, hc, hlen,
            hbody, Or.inr ⟨a, b, htail.1.2, htail.2, Or.inr ⟨w, htail.1.1, rfl⟩⟩⟩
          rw [← hrm, hsplit]
  · rintro ⟨c, body, suff, rfl, hc, hlen, hbody, hsuff⟩
    have hbody' : ∀ x ∈ body, inCityClass x = true :=
      fun x hx => wsClass_to_inCityClass (hbody x hx)
    have hsuffTake : suff.takeWhile inCityClass = [] ∧
        suff.dropWhile inCityClass = suff := by
      rcases hsuff with rfl | ⟨a, b, _, _, hshape⟩
      · exact ⟨rfl, rfl⟩
      · rcases hshape with rfl | ⟨w, _, rfl⟩
        · rw [List.takeWhile_cons, List.dropWhile_cons, comma_not_inCityClass]
          exact ⟨rfl, rfl⟩
        · rw [List.takeWhile_cons, List.dropWhile_cons, comma_not_inCityClass]
          exact ⟨rfl, rfl⟩
    obtain ⟨htw, hdw⟩ := @takeWhile_append_of_all inCityClass body suff hbody'
    unfold matchesCity
    simp only [Bool.and_eq_true, decide_eq_true_eq]
    refine ⟨⟨hc, ?_⟩, ?_⟩
    · rw [htw, hsuffTake.1, List.append_nil]
      exact hlen
    · rw [hdw, hsuffTake.2]
      rcases hsuff with rfl | ⟨a, b, ha, hb, hshape⟩
      · exact rfl
      · rcases hshape with rfl | ⟨w, hw, rfl⟩
        · simp [stateTail, ha, hb]
        · simp [stateTail, ha, hb, hw]

theorem wsCity_ne_nil {cs : List Char} (h : WsCity cs) : cs ≠ [] := by
  obtain ⟨c, body, suff, rfl, _⟩ := h
  simp

theorem wsCity_not_zip {cs : List Char} (h : WsCity cs) : ¬ ZipShape cs := by
  obtain ⟨c, body, suff, rfl, hc, _⟩ := h
  rintro ⟨_, hdig⟩
  have := hdig c (List.mem_cons_self _ _)
  rw [letter_not_digit hc] at this
  exact Bool.false_ne_true this

/-- C7 (amended): `validateSearchInput` trims its input and classifies:
`zip` exactly for five ASCII digits; `city` exactly for the city grammar
with any JS whitespace allowed inside the name and as the optional single
separator of the `,XX` state suffix; `invalid` exactly otherwise (including
the empty trim). -/
theorem validateSearchInput_spec (input : String) :
    (validateSearchInput input).sanitized = jsTrim input ∧
    ((validateSearchInput input).type = QueryType.zip ↔
      ZipShape (jsTrim input).data) ∧
    ((validateSearchInput input).type = QueryType.city ↔
      WsCity (jsTrim input).data) ∧
    ((validateSearchInput input).type = QueryType.invalid ↔
      ((jsTrim input).data = [] ∨
        (¬ ZipShape (jsTrim input).data ∧ ¬ WsCity (jsTrim input).data))) := by
  unfold validateSearchInput
  dsimp only
  split_ifs with h0 h1 h2
  · have hnil : (jsTrim input).data = [] := List.length_eq_zero.mp h0
    refine ⟨rfl, ?_, ?_, ?_⟩
    · constructor
      · intro h; exact h.elim
      · intro hz; rw [hnil] at hz; exact absurd hz.1 (by simp)
    · constructor
      · intro h; exact h.elim
      · intro hw; exact absurd hnil (wsCity_ne_nil hw)
    · exact ⟨fun _ => Or.inl hnil, fun _ => by trivial⟩
  · have hz : ZipShape (jsTrim input).data := zipTest_iff.mp h1
    refine ⟨rfl, ⟨fun _ => hz, fun _ => by trivial⟩, ?_, ?_⟩
    · constructor
      · intro h; exact h.elim
      · intro hw; exact absurd hz (wsCity_not_zip hw)
    · constructor
      · intro h; exact h.elim
      · rintro (hnil | ⟨hnz, _⟩)
        · rw [hnil] at hz; exact absurd hz.1 (by simp)
        · exact absurd hz hnz
  · have hw : WsCity (jsTrim input).data := matchesCity_iff.mp h2
    refine ⟨rfl, ?_, ⟨fun _ => hw, fun _ => by trivial⟩, ?_⟩
    · constructor
      · intro h; exact h.elim
      · intro hz; rw [← zipTest_iff] at hz; exact absurd hz h1
    · constructor
      · intro h; exact h.elim
      · rintro (hnil | ⟨_, hnw⟩)
        · exact absurd hnil (wsCity_ne_nil hw)
        · exact absurd hw hnw
  · refine ⟨rfl, ?_, ?_, ?_⟩
    · constructor
      · intro h; exact h.elim
      · intro hz; rw [← zipTest_iff] at hz; exact absurd hz h1
    · constructor
      · intro h; exact h.elim
      · intro hw; rw [← matchesCity_iff] at hw; exact absurd hw h2
    · exact ⟨fun _ => Or.inr ⟨fun hz => h1 (zipTest_iff.mpr hz),
        fun hw => h2 (matchesCity_iff.mpr hw)⟩, fun _ => by trivial⟩

/-- C7 counterexample: `"a\tb"` (an interior tab) is classified `city` by
the code, but the spec's grammar — whose characters are limited to letters,
spaces, periods, hyphens and apostrophes — rejects it. -/
theorem validateSearchInput_cx :
    (validateSearchInput "a\tb").type = QueryType.city ∧
    ¬ ClaimCity (jsTrim "a\tb").data := by
  constructor
  · decide
  · have ht : (jsTrim "a\tb").data = ['a', '\t', 'b'] := by decide
    rw [ht]
    rintro ⟨c, body, suff, heq, hc, hlen, hbody, hsuff⟩
    have hc' : c = 'a' := by
      have := congrArg (fun l => l.headD ' ') heq
      simpa using this.symm
    have hbs : body ++ suff = ['\t', 'b'] := by
      have := congrArg List.tail heq
      simpa using this.symm
    rcases hsuff with rfl | ⟨a, b, _, _, hshape⟩
    · rw [List.append_nil] at hbs
      subst hbs
      rcases hbody '\t' (by simp) with h | h | h | h | h <;>
        exact absurd h (by decide)
    · rcases hshape with rfl | rfl
      · have := congrArg List.length hbs
        simp [List.length_append] at this
      · have := congrArg List.length hbs
        simp [List.length_append] at this

/-! ## `formatApiQuery` lemmas -/

theorem lastCommaSplit_eq_none {l : List Char} (h : ∀ x ∈ l, x ≠ ',') :
    lastCommaSplit l = none := by
  induction l with
  | nil => rfl
  | cons c rest ih =>
    have hcomma : (c.toNat == 44) = false := by
      rw [beq_eq_false_iff_ne]
      intro habs
      exact h c (List.mem_cons_self _ _) (toNat_eq_comma.mp habs)
    unfold lastCommaSplit
    rw [ih fun x hx => h x (List.mem_cons_of_mem _ hx)]
    simp [hcomma]

theorem lastCommaSplit_append {l₁ l₂ : List Char} (h₁ : ∀ x ∈ l₁, x ≠ ',')
    (h₂ : ∀ x ∈ l₂, x ≠ ',') :
    lastCommaSplit (l₁ ++ ',' :: l₂) = some (l₁, l₂) := by
  induction l₁ with
  | nil =>
    rw [List.nil_append]
    simp only [lastCommaSplit]
    rw [lastCommaSplit_eq_none h₂]
    simp
  | cons c l₁ ih =>
    have hih := ih fun x hx => h₁ x (List.mem_cons_of_mem _ hx)
    rw [List.cons_append]
    simp only [lastCommaSplit]
    rw [hih]

theorem countOcc_digits {cs : List Char} (h : ∀ x ∈ cs, isAsciiDigit x = true) :
    countOcc [',', 'U', 'S'] (cs ++ [',', 'U', 'S']) = 1 := by
  induction cs with
  | nil => decide
  | cons c rest ih =>
    have hc := h c (List.mem_cons_self _ _)
    have hcne : ((',' : Char) == c) = false := by
      rw [beq_eq_false_iff_ne]
      intro he
      rw [← he] at hc
      exact absurd hc (by decide)
    rw [List.cons_append, countOcc]
    rw [show beginsWith [',', 'U', 'S'] (c :: (rest ++ [',', 'U', 'S'])) = false by
      simp [beginsWith, hcne]]
    simp [ih fun x hx => h x (List.mem_cons_of_mem _ hx)]

theorem letter_ne_comma {c : Char} (h : isAsciiLetter c = true) : c ≠ ',' := by
  intro he
  rw [he] at h
  exact absurd h (by decide)

/-- C8 (amended): for classified inputs, `formatApiQuery` appends `",US"`
to a zip (which then contains `",US"` exactly once, at the end); normalizes
a city with a `, XX`/`,XX` state suffix whose name holds no line terminator
to `name,XX,US` with the name trimmed and the state characters passed
through verbatim; falls silently into the no-suffix branch — appending
`",US"` to the whole input — when the name holds a line terminator (JS `.`
does not match LF, CR, U+2028, U+2029); and appends `",US"` to a city
without a comma. -/
theorem formatApiQuery_spec :
    (∀ s : String, ZipShape s.data →
      formatApiQuery s QueryType.zip = s ++ ",US" ∧
      countOcc [',', 'U', 'S'] ((formatApiQuery s QueryType.zip).data) = 1) ∧
    (∀ (s : String) (name sep st : List Char),
      s.data = name ++ ',' :: (sep ++ st) →
      name ≠ [] → (∀ x ∈ name, x ≠ ',') →
      (∀ x ∈ name, isLineTerm x = false) →
      (sep = [] ∨ ∃ w, isJsWs w = true ∧ sep = [w]) →
      st.length = 2 → (∀ x ∈ st, isAsciiLetter x = true) →
      formatApiQuery s QueryType.city =
        String.mk (jsTrimList name) ++ "," ++ String.mk st ++ ",US") ∧
    (∀ (s : String) (name sep st : List Char),
      s.data = name ++ ',' :: (sep ++ st) →
      name ≠ [] → (∀ x ∈ name, x ≠ ',') →
      (∃ x ∈ name, isLineTerm x = true) →
      (sep = [] ∨ ∃ w, isJsWs w = true ∧ sep = [w]) →
      st.length = 2 → (∀ x ∈ st, isAsciiLetter x = true) →
      formatApiQuery s QueryType.city = s ++ ",US") ∧
    (∀ s : String, (∀ x ∈ s.data, x ≠ ',') →
      formatApiQuery s QueryType.city = s ++ ",US") := by
  have hnc2gen : ∀ (sep st : List Char),
      (sep = [] ∨ ∃ w, isJsWs w = true ∧ sep = [w]) →
      st.length = 2 → (∀ x ∈ st, isAsciiLetter x = true) →
      ∀ x ∈ sep ++ st, x ≠ ',' := by
    intro sep st hsep hst2 hstl x hx
    rcases List.mem_append.mp hx with hx | hx
    · rcases hsep with rfl | ⟨w, hw, rfl⟩
      · simp at hx
      · rw [List.mem_singleton] at hx
        subst hx
        intro he
        rw [he] at hw
        exact absurd hw (by decide)
    · exact letter_ne_comma (hstl x hx)
  refine ⟨?_, ?_, ?_, ?_⟩
  · intro s hz
    refine ⟨rfl, ?_⟩
    show countOcc [',', 'U', 'S'] ((s ++ ",US").data) = 1
    rw [String.data_append]
    exact countOcc_digits hz.2
  · intro s name sep st heq hne hnc hnl hsep hst2 hstl
    obtain ⟨a, b, hab⟩ := List.length_eq_two.mp hst2
    subst hab
    have ha := hstl a (by simp)
    have hb := hstl b (by simp)
    have hsplit : lastCommaSplit s.data = some (name, sep ++ [a, b]) := by
      rw [heq]
      exact lastCommaSplit_append hnc (hnc2gen sep [a, b] hsep hst2 hstl)
    have hdrop : (sep ++ [a, b]).dropWhile isJsWs = [a, b] := by
      rcases hsep with rfl | ⟨w, hw, rfl⟩
      · rw [List.nil_append, List.dropWhile_cons, letter_not_ws ha]
        simp
      · rw [List.cons_append, List.nil_append, List.dropWhile_cons, hw]
        rw [if_pos rfl, List.dropWhile_cons, letter_not_ws ha]
        simp
    show (match cityStateMatch s.data with
      | some (nm, st') => String.mk (jsTrimList nm) ++ "," ++ String.mk st' ++ ",US"
      | none => s ++ ",US") =
      String.mk (jsTrimList name) ++ "," ++ String.mk [a, b] ++ ",US"
    have hmatch : cityStateMatch s.data = some (name, [a, b]) := by
      unfold cityStateMatch
      rw [hsplit]
      dsimp only
      rw [hdrop]
      rw [if_pos ⟨by simpa using hne,
        List.all_eq_true.mpr fun x hx => by rw [hnl x hx]; rfl,
        rfl, by simp [ha, hb]⟩]
    rw [hmatch]
  · intro s name sep st heq hne hnc hlt hsep hst2 hstl
    have hsplit : lastCommaSplit s.data = some (name, sep ++ st) := by
      rw [heq]
      exact lastCommaSplit_append hnc (hnc2gen sep st hsep hst2 hstl)
    show (match cityStateMatch s.data with
      | some (nm, st') => String.mk (jsTrimList nm) ++ "," ++ String.mk st' ++ ",US"
      | none => s ++ ",US") = s ++ ",US"
    have hmatch : cityStateMatch s.data = none := by
      unfold cityStateMatch
      rw [hsplit]
      dsimp only
      rw [if_neg]
      rintro ⟨-, hall, -, -⟩
      obtain ⟨x, hx, hxl⟩ := hlt
      have hx' := List.all_eq_true.mp hall x hx
      rw [hxl] at hx'
      simp at hx'
    rw [hmatch]
  · intro s hnc
    show (match cityStateMatch s.data with
      | some (nm, st') => String.mk (jsTrimList nm) ++ "," ++ String.mk st' ++ ",US"
      | none => s ++ ",US") = s ++ ",US"
    have hmatch : cityStateMatch s.data = none := by
      unfold cityStateMatch
      rw [lastCommaSplit_eq_none hnc]
    rw [hmatch]

/-- C8 witness at `"90210"` (zip), `"Austin, TX"` (city with a clean state
suffix), `"a\nb, TX"` (state suffix behind a line-terminator name, silent
fallback) and `"Boston"` (city without suffix). -/
theorem formatApiQuery_spec_witness :
    formatApiQuery "90210" QueryType.zip = "90210,US" ∧
    countOcc [',', 'U', 'S'] ((formatApiQuery "90210" QueryType.zip).data) = 1 ∧
    formatApiQuery "Austin, TX" QueryType.city = "Austin,TX,US" ∧
    formatApiQuery "a\nb, TX" QueryType.city = "a\nb, TX,US" ∧
    formatApiQuery "Boston" QueryType.city = "Boston,US" := by
  refine ⟨?_, ?_, ?_, ?_, ?_⟩
  · exact (formatApiQuery_spec.1 "90210" (by decide)).1.trans (by decide)
  · exact (formatApiQuery_spec.1 "90210" (by decide)).2
  · exact (formatApiQuery_spec.2.1 "Austin, TX" ("Austin").data [' ']
      ("TX").data (by decide) (by decide) (by decide) (by decide)
      (Or.inr ⟨' ', by decide, rfl⟩) (by decide) (by decide)).trans (by decide)
  · exact (formatApiQuery_spec.2.2.1 "a\nb, TX" ("a\nb").data [' ']
      ("TX").data (by decide) (by decide) (by decide)
      ⟨'\n', by decide, by decide⟩
      (Or.inr ⟨' ', by decide, rfl⟩) (by decide) (by decide)).trans (by decide)
  · exact (formatApiQuery_spec.2.2.2 "Boston" (by decide)).trans (by decide)

/-- C8 counterexample: `"a\nb, TX"` passes classification as a city and ends
with the `, TX` state suffix, yet the code does not normalize it — `.` in
`/^(.+),\s*([a-zA-Z]{2})$/` cannot cross the line feed, so the match fails
and the whole input just gets `",US"` appended. -/
theorem formatApiQuery_cx :
    (validateSearchInput "a\nb, TX").type = QueryType.city ∧
    formatApiQuery "a\nb, TX" QueryType.city = "a\nb, TX,US" ∧
    formatApiQuery "a\nb, TX" QueryType.city ≠ "a\nb,TX,US" := by
  decide

/-- C4 witness: the invariants evaluated on a concrete two-day input,
instantiating the per-summary clause at the first summary. -/
theorem transformForecastData_invariants_witness :
    (transformForecastData 0 172800 [sampleDay3a, sampleDay2a]).length ≤ 6 ∧
    (((transformForecastData 0 172800
        [sampleDay3a, sampleDay2a]).headD defaultForecast).tempLow ≤
      ((transformForecastData 0 172800
        [sampleDay3a, sampleDay2a]).headD defaultForecast).tempHigh ∧
      ((transformForecastData 0 172800
        [sampleDay3a, sampleDay2a]).headD defaultForecast).hourly ≠ []) :=
  ⟨(transformForecastData_invariants 0 172800 [sampleDay3a, sampleDay2a]).1,
   (transformForecastData_invariants 0 172800 [sampleDay3a, sampleDay2a]).2.2.2
     ((transformForecastData 0 172800
       [sampleDay3a, sampleDay2a]).headD defaultForecast) (by decide)⟩
